import Mathlib

/-!
# Statistics exporter: catch-up scheduling and backfill

A shallow embedding of `cmd/statistics/main.go`.

* Unsigned 64-bit values are natural numbers, with the wrap-around of `++` and `-`
  written out as `% 18446744073709551616`.
* Arguments handed to the store and to the dataset writers are integers holding the
  value that the Go conversion (`uint64(..)`, `int64(..)`) produces.
* The store (`db.WriterDb`, `db.GetLatestEpoch`) and the two dataset writers are external
  collaborators; they are the fields of `Db`, acting on an abstract store state.
* Every effectful call that matters for scheduling is recorded, in order, in a trace of
  `Event`s.
* The `for` loops over days carry a step budget (`fuel`): a loop that has not left its
  range when the budget is used up is reported as such.
-/

namespace Statistics

/-! ## Data model -/

/-- The two day-indexed datasets, each with its own status table and writer. -/
inductive Kind where
  | validator
  | chart
  deriving DecidableEq, Repr

/-- A recorded call on an external collaborator: a status-row delete or a writer call,
with the day argument actually passed and whether the call returned a nil error. -/
inductive Event where
  | delete (k : Kind) (day : Int) (ok : Bool)
  | write (k : Kind) (day : Int) (ok : Bool)
  deriving DecidableEq, Repr

/-- Go `uint64(x)`: the value modulo 2^64. -/
def toUint64 (x : Int) : Int := x % 18446744073709551616

/-- Go `int64(x)`: the two's-complement reading of the low 64 bits. -/
def toInt64 (x : Int) : Int :=
  (x + 9223372036854775808) % 18446744073709551616 - 9223372036854775808

/-- The argument a writer receives for day `d`: `WriteValidatorStatisticsForDay(uint64(d))`
and `WriteChartSeriesForDay(int64(d))`. -/
def writerArg (k : Kind) (d : Int) : Int :=
  match k with
  | Kind.validator => toUint64 d
  | Kind.chart => toInt64 d

/-- The external collaborators over a store state `σ`.
`GetLatestEpoch` and `GetMaxDay` return `none` when the call returns an error;
`GetMaxDay k` is `select COALESCE(max(day), 0) from <k>_status where status`;
`ExecDelete k d` is `delete from <k>_status where day = d`;
`WriteForDay k d` is the dataset writer of kind `k`. The boolean is `err == nil`. -/
structure Db (σ : Type) where
  GetLatestEpoch : σ → Option Nat
  GetMaxDay : Kind → σ → Option Nat
  ExecDelete : Kind → Int → σ → Bool × σ
  WriteForDay : Kind → Int → σ → Bool × σ

/-- The process-wide `options` value. -/
structure options where
  configPath : String
  statisticsDayToExport : Int
  statisticsDaysToExport : String
  poolsDisabledFlag : Bool
  statisticsValidatorToggle : Bool
  statisticsChartToggle : Bool
  deriving DecidableEq, Repr

/-- The values of the command-line flags after `flag.Parse()`:
`config`, `statistics.day`, `statistics.days`, `pools.disabled`, `validators.enabled`,
`charts.enabled`. -/
structure Flags where
  configPath : String
  statisticsDayToExport : Int
  statisticsDaysToExport : String
  poolsDisabledFlag : Bool
  statisticsValidatorToggle : Bool
  statisticsChartToggle : Bool
  deriving DecidableEq, Repr

/-- The composite literal assigned to `opt` in `main` (lines 40-46). The field
`statisticsValidatorToggle` is given the `charts.enabled` flag and the field
`statisticsChartToggle` is not listed, so it keeps its zero value. -/
def mainOptions (f : Flags) : options :=
  options.mk f.configPath f.statisticsDayToExport f.statisticsDaysToExport
    f.poolsDisabledFlag f.statisticsChartToggle false

/-- The chain constants read from `utils.Config.Chain.Config`. -/
structure ChainConfig where
  SlotsPerEpoch : Nat
  SecondsPerSlot : Nat
  deriving DecidableEq, Repr

/-! ## Day clock (lines 184-196) -/

/-- Go unsigned division: a zero divisor is a run-time panic. -/
def goDiv (a b : Nat) : Option Nat :=
  if b = 0 then none else some (a / b)

/-- The value `(24 * 60 * 60) / SlotsPerEpoch / SecondsPerSlot`; `none` is the
integer-divide-by-zero panic. -/
def epochsPerDay (c : ChainConfig) : Option Nat :=
  match goDiv (24 * 60 * 60) c.SlotsPerEpoch with
  | none => none
  | some q => goDiv q c.SecondsPerSlot

/-- Outcome of the day computation of one poll cycle. -/
inductive Clock where
  | panicked
  | notReady
  | ready (currentDay previousDay : Nat)
  deriving DecidableEq, Repr

/-- Lines 184-196: `epochsPerDay`, the readiness test, `currentDay` and the clamped
`previousDay`. -/
def dayClock (c : ChainConfig) (latestEpoch : Nat) : Clock :=
  match epochsPerDay c with
  | none => Clock.panicked
  | some perDay =>
    if latestEpoch < perDay then Clock.notReady
    else
      match goDiv latestEpoch perDay with
      | none => Clock.panicked
      | some currentDay =>
        let previousDay := (currentDay + 18446744073709551615) % 18446744073709551616
        if previousDay > currentDay then Clock.ready currentDay currentDay
        else Clock.ready currentDay previousDay

/-! ## Catch-up (lines 198-238) -/

/-- Result of a loop over days: the calls made, the store afterwards, and whether the loop
left its range within the step budget. -/
structure LoopRun (σ : Type) where
  trace : List Event
  state : σ
  finished : Bool

/-- The loop `for day := start; day <= previousDay; day++ { write(day) }` of one dataset
kind; a writer error is logged and the loop goes on. -/
def catchUpLoop {σ : Type} (db : Db σ) (k : Kind) :
    Nat → Nat → Nat → σ → LoopRun σ
  | 0, day, previousDay, s => LoopRun.mk [] s (decide (¬ day ≤ previousDay))
  | fuel + 1, day, previousDay, s =>
    if day ≤ previousDay then
      let r := db.WriteForDay k (writerArg k day) s
      let rest := catchUpLoop db k fuel ((day + 1) % 18446744073709551616) previousDay r.2
      LoopRun.mk (Event.write k (writerArg k day) r.1 :: rest.trace) rest.state rest.finished
    else LoopRun.mk [] s true

/-- The starting day derived from the status table (lines 199-206 and 221-228): the
variable starts at zero, a failed read leaves it untouched, and a non-zero value is
incremented. -/
def startDay (read : Option Nat) : Nat :=
  let lastExportedDay := match read with
    | some v => v
    | none => 0
  if lastExportedDay ≠ 0 then (lastExportedDay + 1) % 18446744073709551616
  else lastExportedDay

/-- The body of `if opt.statistics<Kind>Toggle { ... }` for one dataset kind. -/
def catchUp {σ : Type} (db : Db σ) (k : Kind) (fuel previousDay : Nat) (s : σ) :
    LoopRun σ :=
  let lastExportedDay := startDay (db.GetMaxDay k s)
  if lastExportedDay ≤ previousDay ∨ lastExportedDay = 0 then
    catchUpLoop db k fuel lastExportedDay previousDay s
  else LoopRun.mk [] s true

/-- How one pass through the body of `for { ... }` in `statisticsLoop` ends. -/
inductive CycleStatus where
  | epochError
  | panicked
  | notReady
  | outOfFuel
  | reported
  deriving DecidableEq, Repr

/-- One poll cycle: how it ended, the calls made, the store afterwards. -/
structure Cycle (σ : Type) where
  status : CycleStatus
  trace : List Event
  state : σ

/-- One pass through the body of the `for` loop of `statisticsLoop` (lines 177-241). -/
def statisticsLoop {σ : Type} (c : ChainConfig) (opt : options) (db : Db σ)
    (fuel : Nat) (s : σ) : Cycle σ :=
  match db.GetLatestEpoch s with
  | none => Cycle.mk CycleStatus.epochError [] s
  | some latestEpoch =>
    match dayClock c latestEpoch with
    | Clock.panicked => Cycle.mk CycleStatus.panicked [] s
    | Clock.notReady => Cycle.mk CycleStatus.notReady [] s
    | Clock.ready _ previousDay =>
      let v := if opt.statisticsValidatorToggle
        then catchUp db Kind.validator fuel previousDay s
        else LoopRun.mk [] s true
      if v.finished then
        let ch := if opt.statisticsChartToggle
          then catchUp db Kind.chart fuel previousDay v.state
          else LoopRun.mk [] v.state true
        if ch.finished then Cycle.mk CycleStatus.reported (v.trace ++ ch.trace) ch.state
        else Cycle.mk CycleStatus.outOfFuel (v.trace ++ ch.trace) ch.state
      else Cycle.mk CycleStatus.outOfFuel v.trace v.state

/-! ## Backfill command path (lines 91-162) -/

/-- Go `strings.Split(s, sep)` for a one-byte separator: the pieces between the
separators, `n + 1` of them when the separator occurs `n` times. -/
def Split : List Char → Char → List (List Char)
  | [], _ => [[]]
  | c :: cs, sep =>
    if c = sep then [] :: Split cs sep
    else
      match Split cs sep with
      | [] => [[c]]
      | p :: ps => (c :: p) :: ps

/-- The digit loop of `strconv.ParseUint(s, 10, 64)`: a byte outside `0`-`9` is a syntax
error, a value that leaves the 64-bit range is a range error. -/
def parseDigits : List Char → Nat → Option Nat
  | [], n => some n
  | c :: cs, n =>
    if 48 ≤ c.toNat ∧ c.toNat ≤ 57 then
      let d := c.toNat - 48
      if n ≥ 18446744073709551615 / 10 + 1 then none
      else
        let n10 := n * 10
        let n1 := (n10 + d) % 18446744073709551616
        if n1 < n10 ∨ n1 > 18446744073709551615 then none
        else parseDigits cs n1
    else none

/-- Go `strconv.ParseUint(s, 10, 64)`; `none` when it returns an error. -/
def ParseUint (s : List Char) : Option Nat :=
  if s = [] then none else parseDigits s 0

/-- How a loop of the backfill path ends. -/
inductive LoopStatus where
  | done
  | fatal
  | outOfFuel
  deriving DecidableEq, Repr

/-- Result of one backfill loop. -/
structure BackfillRun (σ : Type) where
  status : LoopStatus
  trace : List Event
  state : σ

/-- Delete the status row of `(k, d)`, then call the writer (lines 108-116, 123-131,
139-147, 151-159). A delete error is `logrus.Fatalf`; a writer error is logged. The
result is `none` on the fatal exit. -/
def resetAndWrite {σ : Type} (db : Db σ) (k : Kind) (d : Int) (s : σ) :
    List Event × Option σ :=
  let del := db.ExecDelete k d s
  if del.1 then
    let w := db.WriteForDay k (writerArg k d) del.2
    ([Event.delete k d true, Event.write k (writerArg k d) w.1], some w.2)
  else ([Event.delete k d false], none)

/-- The loop `for d := firstDay; d <= lastDay; d++ { delete; write }` of one dataset
kind (lines 107-117 and 122-132). -/
def backfillLoop {σ : Type} (db : Db σ) (k : Kind) :
    Nat → Nat → Nat → σ → BackfillRun σ
  | 0, d, lastDay, s =>
    BackfillRun.mk (if d ≤ lastDay then LoopStatus.outOfFuel else LoopStatus.done) [] s
  | fuel + 1, d, lastDay, s =>
    if d ≤ lastDay then
      match resetAndWrite db k (d : Int) s with
      | (evs, none) => BackfillRun.mk LoopStatus.fatal evs s
      | (evs, some s1) =>
        let rest := backfillLoop db k fuel ((d + 1) % 18446744073709551616) lastDay s1
        BackfillRun.mk rest.status (evs ++ rest.trace) rest.state
    else BackfillRun.mk LoopStatus.done [] s

/-- How `main` ends: a fatal log and exit, a plain `return` after a backfill, the
background loops started (which of `statisticsLoop` and `poolsLoop`), or a backfill loop
still running when the step budget is used up. -/
inductive MainStatus where
  | fatal
  | returned
  | background (statistics pools : Bool)
  | outOfFuel
  deriving DecidableEq, Repr

/-- Result of `main`. -/
structure MainRun (σ : Type) where
  status : MainStatus
  trace : List Event
  state : σ

/-- The range branch of `main` after both bounds are parsed (lines 105-135). -/
def backfillRange {σ : Type} (f : Flags) (db : Db σ) (fuel firstDay lastDay : Nat)
    (s : σ) : MainRun σ :=
  let v := if f.statisticsValidatorToggle
    then backfillLoop db Kind.validator fuel firstDay lastDay s
    else BackfillRun.mk LoopStatus.done [] s
  match v.status with
  | LoopStatus.fatal => MainRun.mk MainStatus.fatal v.trace v.state
  | LoopStatus.outOfFuel => MainRun.mk MainStatus.outOfFuel v.trace v.state
  | LoopStatus.done =>
    let ch := if f.statisticsChartToggle
      then backfillLoop db Kind.chart fuel firstDay lastDay v.state
      else BackfillRun.mk LoopStatus.done [] v.state
    match ch.status with
    | LoopStatus.fatal => MainRun.mk MainStatus.fatal (v.trace ++ ch.trace) ch.state
    | LoopStatus.outOfFuel => MainRun.mk MainStatus.outOfFuel (v.trace ++ ch.trace) ch.state
    | LoopStatus.done => MainRun.mk MainStatus.returned (v.trace ++ ch.trace) ch.state

/-- The single-day branch of `main` (lines 138-161). -/
def backfillDay {σ : Type} (f : Flags) (db : Db σ) (s : σ) : MainRun σ :=
  let v := if f.statisticsValidatorToggle
    then resetAndWrite db Kind.validator f.statisticsDayToExport s
    else ([], some s)
  match v with
  | (evs, none) => MainRun.mk MainStatus.fatal evs s
  | (evs, some s1) =>
    let ch := if f.statisticsChartToggle
      then resetAndWrite db Kind.chart f.statisticsDayToExport s1
      else ([], some s1)
    match ch with
    | (evs2, none) => MainRun.mk MainStatus.fatal (evs ++ evs2) s1
    | (evs2, some s2) => MainRun.mk MainStatus.returned (evs ++ evs2) s2

/-- The function `main` from the point where the stores are initialised (lines 91-172):
the range backfill, the single-day backfill, or the start of the background loops. -/
def main {σ : Type} (f : Flags) (db : Db σ) (fuel : Nat) (s : σ) : MainRun σ :=
  if f.statisticsDaysToExport ≠ "" then
    let parts := Split f.statisticsDaysToExport.toList '-'
    if parts.length < 2 then MainRun.mk MainStatus.fatal [] s
    else
      match ParseUint (parts.getD 0 []) with
      | none => MainRun.mk MainStatus.fatal [] s
      | some firstDay =>
        match ParseUint (parts.getD 1 []) with
        | none => MainRun.mk MainStatus.fatal [] s
        | some lastDay => backfillRange f db fuel firstDay lastDay s
  else if f.statisticsDayToExport ≥ 0 then backfillDay f db s
  else MainRun.mk (MainStatus.background true (!f.poolsDisabledFlag)) [] s

/-- One poll cycle of the `statisticsLoop` that `main` starts: the loop consults the
`opt` value that `main` built from the flags. -/
def continuousCycle {σ : Type} (c : ChainConfig) (f : Flags) (db : Db σ) (fuel : Nat)
    (s : σ) : Cycle σ :=
  statisticsLoop c (mainOptions f) db fuel s

/-- The toggle of `opt` that `statisticsLoop` consults for a dataset kind. -/
def options.enabled (opt : options) (k : Kind) : Bool :=
  match k with
  | Kind.validator => opt.statisticsValidatorToggle
  | Kind.chart => opt.statisticsChartToggle

/-- The store at the moment a poll cycle reads the status table of kind `k`: the
validator table is read first, the chart table after the validator catch-up. -/
def readState {σ : Type} (opt : options) (db : Db σ) (fuel previousDay : Nat) (s : σ)
    (k : Kind) : σ :=
  match k with
  | Kind.validator => s
  | Kind.chart =>
    if opt.statisticsValidatorToggle
    then (catchUp db Kind.validator fuel previousDay s).state
    else s

/-! ## Reading a trace -/

/-- The day arguments of the writer calls of kind `k`, in call order. -/
def writesOf (k : Kind) : List Event → List Int
  | [] => []
  | Event.write k1 d _ :: es => if k1 = k then d :: writesOf k es else writesOf k es
  | Event.delete _ _ _ :: es => writesOf k es

/-- The days `first, first + 1, ..., last` (empty when `first > last`). -/
def daysFromTo (first last : Nat) : List Nat :=
  List.range' first (last + 1 - first)

/-! ## A store made of the two status tables -/

/-- The rows `(day, status)` of one status table. -/
abbrev Ledger := List (Nat × Bool)

/-- The query `select COALESCE(max(day), 0) from <table> where status`. -/
def maxCompletedDay (l : Ledger) : Nat :=
  ((l.filter (fun r => r.2)).map (fun r => r.1)).foldl max 0

/-- A store holding the chain head and the two status tables. -/
structure World where
  latestEpoch : Nat
  validatorStatus : Ledger
  chartStatus : Ledger
  deriving DecidableEq, Repr

/-- The status table of a dataset kind. -/
def World.ledger (w : World) (k : Kind) : Ledger :=
  match k with
  | Kind.validator => w.validatorStatus
  | Kind.chart => w.chartStatus

/-- Replace the status table of a dataset kind. -/
def World.setLedger (w : World) (k : Kind) (l : Ledger) : World :=
  match k with
  | Kind.validator => World.mk w.latestEpoch l w.chartStatus
  | Kind.chart => World.mk w.latestEpoch w.validatorStatus l

/-- Modelled from the spec: the dataset writers `db.WriteValidatorStatisticsForDay` and
`db.WriteChartSeriesForDay` and the store behind `db.WriterDb` are not part of the
sources at hand. Following the data model of the specification, the writer creates the
entry `(day, true)` exactly when it succeeds and leaves the table alone when it fails;
a delete removes the rows of the day. `writerFails`, `readFails` and `deleteFails` say
which calls return an error. -/
def ledgerDb (writerFails : Kind → Int → Bool) (readFails : Kind → Bool)
    (deleteFails : Kind → Int → Bool) : Db World :=
  Db.mk
    (fun w => some w.latestEpoch)
    (fun k w => if readFails k then none else some (maxCompletedDay (w.ledger k)))
    (fun k d w =>
      if deleteFails k d then (false, w)
      else (true, w.setLedger k ((w.ledger k).filter (fun r => decide ((r.1 : Int) ≠ d)))))
    (fun k d w =>
      if writerFails k d then (false, w)
      else (true, w.setLedger k ((d.toNat, true) ::
        (w.ledger k).filter (fun r => decide ((r.1 : Int) ≠ d)))))

/-- A store on which every call succeeds and nothing is remembered. -/
def okDb : Db Unit :=
  Db.mk (fun _ => some 0) (fun _ _ => some 0) (fun _ _ _ => (true, ())) (fun _ _ _ => (true, ()))

/-- Day `m` is the greatest day of the table with completion = true. -/
def IsLastCompleted (l : Ledger) (m : Nat) : Prop :=
  (m, true) ∈ l ∧ ∀ r ∈ l, r.2 = true → r.1 ≤ m

instance (l : Ledger) (m : Nat) : Decidable (IsLastCompleted l m) := by
  unfold IsLastCompleted
  infer_instance

/-- The table holds no entry with completion = true. -/
def NoCompleted (l : Ledger) : Prop :=
  ∀ r ∈ l, r.2 = false

instance (l : Ledger) : Decidable (NoCompleted l) := by
  unfold NoCompleted
  infer_instance

/-! ## Calls, plans and well-formed ranges -/

/-- A call on the store or on a writer, without its outcome. -/
inductive Call where
  | delete (k : Kind) (day : Int)
  | write (k : Kind) (day : Int)
  deriving DecidableEq, Repr

/-- The call behind an event. -/
def Event.call : Event → Call
  | Event.delete k d _ => Call.delete k d
  | Event.write k d _ => Call.write k d

/-- Whether the event is a status-row delete that returned an error. -/
def Event.isFailedDelete : Event → Bool
  | Event.delete _ _ ok => !ok
  | Event.write _ _ _ => false

/-- The two calls of a forced recomputation of day `d`: the delete, then the writer. -/
def resetThenWrite (k : Kind) (d : Int) : List Call :=
  [Call.delete k d, Call.write k (writerArg k d)]

/-- The calls of a full backfill of the days `first .. last` for one dataset kind. -/
def backfillPlan (k : Kind) (first last : Nat) : List Call :=
  (daysFromTo first last).flatMap (fun (d : Nat) => resetThenWrite k (d : Int))

/-- A component is numeric: a non-empty string of the digits `0`-`9`. -/
def IsNumeric (p : List Char) : Prop :=
  p ≠ [] ∧ ∀ ch ∈ p, 48 ≤ ch.toNat ∧ ch.toNat ≤ 57

instance (p : List Char) : Decidable (IsNumeric p) := by
  unfold IsNumeric
  infer_instance

/-- The range string is malformed in the sense of the specification: fewer than two
dash-separated components, or some component that is not numeric. -/
def Malformed (days : String) : Prop :=
  (Split days.toList '-').length < 2 ∨ ∃ p ∈ Split days.toList '-', ¬ IsNumeric p

instance (days : String) : Decidable (Malformed days) := by
  unfold Malformed
  infer_instance

/-- The range string has fewer than two dash-separated components, or one of its first
two components is not numeric. -/
def MalformedBounds (days : String) : Prop :=
  (Split days.toList '-').length < 2 ∨
  ¬ IsNumeric ((Split days.toList '-').getD 0 []) ∨
  ¬ IsNumeric ((Split days.toList '-').getD 1 [])

instance (days : String) : Decidable (MalformedBounds days) := by
  unfold MalformedBounds
  infer_instance

/-- The shape of a trace that stops at the first failed delete: events without a failed
delete, followed by one failed delete exactly when the run is fatal. -/
def AbortShape (t : List Event) (isFatal : Prop) : Prop :=
  ∃ good, (∀ e ∈ good, e.isFailedDelete = false) ∧
    ((¬ isFatal ∧ t = good) ∨
     (isFatal ∧ ∃ k d, t = good ++ [Event.delete k d false]))

/-- The calls of a range backfill over both dataset kinds, as selected by the flags. -/
def rangePlan (f : Flags) (firstDay lastDay : Nat) : List Call :=
  (if f.statisticsValidatorToggle then backfillPlan Kind.validator firstDay lastDay else [])
  ++ (if f.statisticsChartToggle then backfillPlan Kind.chart firstDay lastDay else [])

/-- The store at the next poll: the chain head has moved to `latestEpoch`, the status
tables are as the previous cycle left them. -/
def nextWorld (w : World) (latestEpoch : Nat) : World :=
  World.mk latestEpoch w.validatorStatus w.chartStatus

/-! ## The effect of a run on the store -/

/-- The writer of kind `k` called for the listed days, one call after the other: each
event carries the outcome the writer returned, and each call runs on the store that the
previous call left. -/
def applyWrites {σ : Type} (db : Db σ) (k : Kind) : List Nat → σ → List Event × σ
  | [], s => ([], s)
  | d :: ds, s =>
    let r := db.WriteForDay k (writerArg k (d : Int)) s
    let rest := applyWrites db k ds r.2
    (Event.write k (writerArg k (d : Int)) r.1 :: rest.1, rest.2)

/-- The writer calls of one dataset kind in a poll cycle: the days from the starting day
read on store `s` to `previousDay`. -/
def catchUpEffect {σ : Type} (db : Db σ) (k : Kind) (previousDay : Nat) (s : σ) :
    List Event × σ :=
  applyWrites db k (daysFromTo (startDay (db.GetMaxDay k s)) previousDay) s

/-- The writer calls of a whole poll cycle: the validator kind first, then the chart kind
on the store the validator calls left, each only when its toggle is set. -/
def cycleEffect {σ : Type} (opt : options) (db : Db σ) (previousDay : Nat) (s : σ) :
    List Event × σ :=
  let v := if opt.statisticsValidatorToggle
    then catchUpEffect db Kind.validator previousDay s else ([], s)
  let c := if opt.statisticsChartToggle
    then catchUpEffect db Kind.chart previousDay v.2 else ([], v.2)
  (v.1 ++ c.1, c.2)

/-- The delete and the writer of kind `k` called for the listed days, one day after the
other, each call on the store the previous call left, up to the first failed delete. -/
def applyResets {σ : Type} (db : Db σ) (k : Kind) : List Nat → σ → List Event × σ
  | [], s => ([], s)
  | d :: ds, s =>
    let del := db.ExecDelete k (d : Int) s
    if del.1 then
      let w := db.WriteForDay k (writerArg k (d : Int)) del.2
      let rest := applyResets db k ds w.2
      (Event.delete k (d : Int) true :: Event.write k (writerArg k (d : Int)) w.1 :: rest.1,
        rest.2)
    else ([Event.delete k (d : Int) false], s)

/-- The calls of a range backfill over the selected dataset kinds: the validator kind
first, then the chart kind on the store the validator calls left. -/
def rangeEffect {σ : Type} (f : Flags) (db : Db σ) (firstDay lastDay : Nat) (s : σ) :
    List Event × σ :=
  let v := if f.statisticsValidatorToggle
    then applyResets db Kind.validator (daysFromTo firstDay lastDay) s else ([], s)
  let c := if f.statisticsChartToggle
    then applyResets db Kind.chart (daysFromTo firstDay lastDay) v.2 else ([], v.2)
  (v.1 ++ c.1, c.2)

/-- The sequence delete(d), write(d) over the days `first .. last`, with the day itself
as the argument of both calls. -/
def plainBackfillPlan (k : Kind) (first last : Nat) : List Call :=
  (daysFromTo first last).flatMap
    (fun (d : Nat) => [Call.delete k (d : Int), Call.write k (d : Int)])

/-- That sequence over the selected dataset kinds. -/
def plainRangePlan (f : Flags) (firstDay lastDay : Nat) : List Call :=
  (if f.statisticsValidatorToggle
    then plainBackfillPlan Kind.validator firstDay lastDay else [])
  ++ (if f.statisticsChartToggle then plainBackfillPlan Kind.chart firstDay lastDay else [])

/-- The argument limit of the store's driver. `db.WriterDb.Exec` is handed the day as a
Go `uint64`; the PostgreSQL driver behind it (`github.com/jackc/pgx/v4/stdlib`, imported
at line 15) sends it as a signed 64-bit integer and returns an error for a value above
9223372036854775807. -/
def Db.RefusesLargeDays {σ : Type} (db : Db σ) : Prop :=
  ∀ (k : Kind) (d : Int) (s : σ), 9223372036854775807 < d → (db.ExecDelete k d s).1 = false

/-! ## Sample inputs -/

/-- Chain constants with 32 slots per epoch and 12 seconds per slot: 225 epochs per day. -/
def mainnet : ChainConfig := ChainConfig.mk 32 12

/-- Chain constants with 32 slots per epoch and one-hour slots. -/
def hourSlots : ChainConfig := ChainConfig.mk 32 3600

/-- An `options` value with both dataset kinds switched on. -/
def bothOn : options := options.mk "" (-1) "" false true true

/-- Flags of a range backfill. -/
def rangeFlags (days : String) (validators charts : Bool) : Flags :=
  Flags.mk "" (-1) days false validators charts

/-- Flags of continuous operation. -/
def loopFlags (validators charts : Bool) : Flags :=
  Flags.mk "" (-1) "" false validators charts

/-- The table store on which no call fails. -/
def noFailure : Db World :=
  ledgerDb (fun _ _ => false) (fun _ => false) (fun _ _ => false)

/-- The table store on which the writers fail on day 1 and nothing else fails. -/
def failOnDayOne : Db World :=
  ledgerDb (fun _ d => decide (d = 1)) (fun _ => false) (fun _ _ => false)

/-- The table store whose deletes obey the driver's argument limit and whose writers fail
on day 6. -/
def failOnDaySix : Db World :=
  ledgerDb (fun _ d => decide (d = 6)) (fun _ => false)
    (fun _ d => decide (9223372036854775807 < d))

/-- Tables in which days 5, 6 and 7 are complete for both dataset kinds. -/
def fiveToSevenComplete : World :=
  World.mk 900 [(5, true), (6, true), (7, true)] [(5, true), (6, true), (7, true)]

/-- The table store on which reading the validator status table fails. -/
def validatorReadFails : Db World :=
  ledgerDb (fun _ _ => false) (fun k => decide (k = Kind.validator)) (fun _ _ => false)

end Statistics

/-! ## Lemmas on traces and day ranges -/

section Lemmas

open Statistics

theorem Statistics.writesOf_append (k : Kind) (a b : List Event) :
    writesOf k (a ++ b) = writesOf k a ++ writesOf k b := by
  induction a with
  | nil => rfl
  | cons e es ih =>
    cases e with
    | delete k1 d ok => simpa [writesOf] using ih
    | write k1 d ok =>
      by_cases h : k1 = k
      · simp [writesOf, h, ih]
      · simp [writesOf, h, ih]

theorem Statistics.daysFromTo_cons (a b : Nat) (h : a ≤ b) :
    daysFromTo a b = a :: daysFromTo (a + 1) b := by
  unfold daysFromTo
  have e : b + 1 - a = (b + 1 - (a + 1)) + 1 := by omega
  rw [e, List.range'_succ]

theorem Statistics.daysFromTo_empty (a b : Nat) (h : b < a) : daysFromTo a b = [] := by
  unfold daysFromTo
  have e : b + 1 - a = 0 := by omega
  rw [e]
  rfl

theorem Statistics.mem_daysFromTo (a b d : Nat) : d ∈ daysFromTo a b ↔ a ≤ d ∧ d ≤ b := by
  unfold daysFromTo
  rw [List.mem_range'_1]
  omega

theorem Statistics.daysFromTo_increasing (a b : Nat) :
    List.Pairwise (fun x y => x < y) (daysFromTo a b) := by
  unfold daysFromTo
  exact List.pairwise_lt_range' a (b + 1 - a)

/-- The catch-up loop with a sufficient step budget: it leaves its range, and the writer
of its own kind is called for the days `day .. previousDay` in order, the writer of the
other kind not at all. -/
theorem Statistics.catchUpLoop_run {σ : Type} (db : Db σ) (k : Kind) (previousDay : Nat)
    (hp : previousDay + 1 < 18446744073709551616) :
    ∀ (fuel day : Nat) (s : σ), previousDay + 1 - day ≤ fuel →
      (catchUpLoop db k fuel day previousDay s).finished = true ∧
      writesOf k (catchUpLoop db k fuel day previousDay s).trace
        = (daysFromTo day previousDay).map (fun (d : Nat) => writerArg k (d : Int)) ∧
      ∀ k1, k1 ≠ k → writesOf k1 (catchUpLoop db k fuel day previousDay s).trace = [] := by
  intro fuel
  induction fuel with
  | zero =>
    intro day s h
    have hd : previousDay < day := by omega
    refine ⟨?_, ?_, ?_⟩
    · simp [catchUpLoop]; omega
    · simp [catchUpLoop, daysFromTo_empty _ _ hd, writesOf]
    · intro k1 _; simp [catchUpLoop, writesOf]
  | succ n ih =>
    intro day s h
    by_cases hd : day ≤ previousDay
    · have hw : (day + 1) % 18446744073709551616 = day + 1 := Nat.mod_eq_of_lt (by omega)
      have hn : previousDay + 1 - (day + 1) ≤ n := by omega
      obtain ⟨h1, h2, h3⟩ := ih (day + 1) (db.WriteForDay k (writerArg k day) s).2 hn
      refine ⟨?_, ?_, ?_⟩
      · simp [catchUpLoop, hd, hw, h1]
      · simp [catchUpLoop, hd, hw, writesOf, h2, daysFromTo_cons _ _ hd]
      · intro k1 hk
        have hk2 : ¬ k = k1 := fun e => hk e.symm
        simp [catchUpLoop, hd, hw, writesOf, hk2, h3 k1 hk]
    · have hd2 : previousDay < day := by omega
      refine ⟨?_, ?_, ?_⟩
      · simp [catchUpLoop, hd]
      · simp [catchUpLoop, hd, daysFromTo_empty _ _ hd2, writesOf]
      · intro k1 _; simp [catchUpLoop, hd, writesOf]

/-- The per-kind catch-up with a sufficient step budget. -/
theorem Statistics.catchUp_run {σ : Type} (db : Db σ) (k : Kind) (fuel previousDay : Nat)
    (s : σ) (hp : previousDay + 1 < 18446744073709551616) (hf : previousDay < fuel) :
    (catchUp db k fuel previousDay s).finished = true ∧
    writesOf k (catchUp db k fuel previousDay s).trace
      = (daysFromTo (startDay (db.GetMaxDay k s)) previousDay).map
          (fun (d : Nat) => writerArg k (d : Int)) ∧
    ∀ k1, k1 ≠ k → writesOf k1 (catchUp db k fuel previousDay s).trace = [] := by
  unfold catchUp
  by_cases h : startDay (db.GetMaxDay k s) ≤ previousDay ∨ startDay (db.GetMaxDay k s) = 0
  · simp only [h, if_true]
    exact catchUpLoop_run db k previousDay hp fuel _ s (by omega)
  · simp only [h, if_false]
    have hlt : previousDay < startDay (db.GetMaxDay k s) := by omega
    refine ⟨trivial, ?_, ?_⟩
    · simp [daysFromTo_empty _ _ hlt, writesOf]
    · intro k1 _; simp [writesOf]

/-- What a ready day clock has computed. -/
theorem Statistics.dayClock_ready (c : ChainConfig) (latestEpoch cur prev : Nat)
    (h : dayClock c latestEpoch = Clock.ready cur prev) :
    ∃ perDay, epochsPerDay c = some perDay ∧ 0 < perDay ∧ perDay ≤ latestEpoch ∧
      cur = latestEpoch / perDay ∧ (latestEpoch < 18446744073709551616 → prev + 1 = cur) := by
  unfold dayClock at h
  cases hE : epochsPerDay c with
  | none => simp [hE] at h
  | some perDay =>
    simp only [hE] at h
    by_cases hlt : latestEpoch < perDay
    · simp [hlt] at h
    · simp only [hlt, if_false] at h
      by_cases hz : perDay = 0
      · simp [goDiv, hz] at h
      · have hpos : 0 < perDay := Nat.pos_of_ne_zero hz
        have hcur : 1 ≤ latestEpoch / perDay := by
          rw [Nat.le_div_iff_mul_le hpos]; omega
        have hle : latestEpoch / perDay ≤ latestEpoch := Nat.div_le_self _ _
        simp only [goDiv, hz, if_false] at h
        split at h
        · rename_i hgt
          simp only [Clock.ready.injEq] at h
          refine ⟨perDay, rfl, hpos, by omega, h.1.symm, ?_⟩
          intro hU
          omega
        · simp only [Clock.ready.injEq] at h
          refine ⟨perDay, rfl, hpos, by omega, h.1.symm, ?_⟩
          intro hU
          omega

/-- A defined `epochsPerDay` means both constants are non-zero. -/
theorem Statistics.epochsPerDay_some (c : ChainConfig) (p : Nat) (h : epochsPerDay c = some p) :
    0 < c.SlotsPerEpoch ∧ 0 < c.SecondsPerSlot := by
  unfold epochsPerDay goDiv at h
  by_cases h1 : c.SlotsPerEpoch = 0
  · simp [h1] at h
  · by_cases h2 : c.SecondsPerSlot = 0
    · simp [h1, h2] at h
    · omega

/-- A poll cycle whose clock is not ready makes no call. -/
theorem Statistics.statisticsLoop_trace_nil {σ : Type} (c : ChainConfig) (opt : options)
    (db : Db σ) (fuel : Nat) (s : σ) (latestEpoch : Nat)
    (hE : db.GetLatestEpoch s = some latestEpoch)
    (h : ∀ cur prev, dayClock c latestEpoch ≠ Clock.ready cur prev) :
    (statisticsLoop c opt db fuel s).trace = [] := by
  unfold statisticsLoop
  simp only [hE]
  cases hC : dayClock c latestEpoch with
  | panicked => rfl
  | notReady => rfl
  | ready cur prev => exact absurd hC (h cur prev)

theorem Statistics.catchUpLoop_other_kind {σ : Type} (db : Db σ) (k k1 : Kind) (hk : k1 ≠ k)
    (previousDay : Nat) :
    ∀ (fuel day : Nat) (s : σ),
      writesOf k1 (catchUpLoop db k fuel day previousDay s).trace = [] := by
  intro fuel
  induction fuel with
  | zero => intro day s; simp [catchUpLoop, writesOf]
  | succ n ih =>
    intro day s
    have hk2 : ¬ k = k1 := fun e => hk e.symm
    by_cases hd : day ≤ previousDay
    · simp [catchUpLoop, hd, writesOf, hk2, ih]
    · simp [catchUpLoop, hd, writesOf]

theorem Statistics.catchUp_other_kind {σ : Type} (db : Db σ) (k k1 : Kind) (hk : k1 ≠ k)
    (fuel previousDay : Nat) (s : σ) :
    writesOf k1 (catchUp db k fuel previousDay s).trace = [] := by
  unfold catchUp
  by_cases h : startDay (db.GetMaxDay k s) ≤ previousDay ∨ startDay (db.GetMaxDay k s) = 0
  · simp only [h, if_true]
    exact catchUpLoop_other_kind db k k1 hk previousDay fuel _ s
  · simp only [h, if_false]
    rfl

theorem Statistics.writerArg_injective (k : Kind) (a b : Nat)
    (ha : a < 18446744073709551616) (hb : b < 18446744073709551616)
    (h : writerArg k (a : Int) = writerArg k (b : Int)) : a = b := by
  cases k with
  | validator =>
    simp only [writerArg, toUint64] at h
    omega
  | chart =>
    simp only [writerArg, toInt64] at h
    omega

/-- The code's quotient `86400 / SlotsPerEpoch / SecondsPerSlot` for non-zero constants. -/
theorem Statistics.epochsPerDay_eq (c : ChainConfig) (hs : 0 < c.SecondsPerSlot)
    (he : 0 < c.SlotsPerEpoch) :
    epochsPerDay c = some (86400 / c.SecondsPerSlot / c.SlotsPerEpoch) := by
  have h1 : c.SlotsPerEpoch ≠ 0 := by omega
  have h2 : c.SecondsPerSlot ≠ 0 := by omega
  have e : (24 * 60 * 60 : Nat) = 86400 := by norm_num
  simp only [epochsPerDay, goDiv, h1, h2, if_false, e]
  rw [Nat.div_div_eq_div_mul, Nat.div_div_eq_div_mul, Nat.mul_comm]

/-- A poll cycle whose clock is ready, run with a sufficient step budget. -/
theorem Statistics.statisticsLoop_ready_run {σ : Type} (c : ChainConfig) (opt : options)
    (db : Db σ) (fuel : Nat) (s : σ) (latestEpoch currentDay previousDay : Nat)
    (hE : db.GetLatestEpoch s = some latestEpoch)
    (hU : latestEpoch < 18446744073709551616)
    (hC : dayClock c latestEpoch = Clock.ready currentDay previousDay)
    (hF : previousDay < fuel) :
    (statisticsLoop c opt db fuel s).status = CycleStatus.reported ∧
    ∀ k, (opt.enabled k = true →
        writesOf k (statisticsLoop c opt db fuel s).trace
          = (daysFromTo (startDay (db.GetMaxDay k (readState opt db fuel previousDay s k)))
              previousDay).map (fun (d : Nat) => writerArg k (d : Int))) ∧
      (opt.enabled k = false → writesOf k (statisticsLoop c opt db fuel s).trace = []) := by
  obtain ⟨perDay, _, _, _, hcur, hprev0⟩ := dayClock_ready c latestEpoch currentDay previousDay hC
  have hprev := hprev0 hU
  have hcl : currentDay ≤ latestEpoch := by rw [hcur]; exact Nat.div_le_self _ _
  have hp : previousDay + 1 < 18446744073709551616 := by omega
  unfold statisticsLoop
  simp only [hE, hC]
  cases hv : opt.statisticsValidatorToggle <;> cases hc : opt.statisticsChartToggle
  · refine ⟨by simp, ?_⟩
    intro k
    cases k <;> simp [options.enabled, hv, hc, writesOf]
  · have R := catchUp_run db Kind.chart fuel previousDay s hp hF
    refine ⟨by simp [R.1], ?_⟩
    intro k
    cases k
    · simp [options.enabled, hv, hc, R.1, writesOf, R.2.2 Kind.validator (by decide)]
    · simp [options.enabled, hv, hc, R.1, writesOf, R.2.1, readState]
  · have R := catchUp_run db Kind.validator fuel previousDay s hp hF
    refine ⟨by simp [R.1], ?_⟩
    intro k
    cases k
    · simp [options.enabled, hv, hc, R.1, writesOf, R.2.1, readState]
    · simp [options.enabled, hv, hc, R.1, writesOf, R.2.2 Kind.chart (by decide)]
  · have R := catchUp_run db Kind.validator fuel previousDay s hp hF
    have Q := catchUp_run db Kind.chart fuel previousDay
      (catchUp db Kind.validator fuel previousDay s).state hp hF
    refine ⟨by simp [R.1, Q.1], ?_⟩
    intro k
    cases k
    · simp [options.enabled, hv, hc, R.1, Q.1, writesOf_append, R.2.1, readState,
        Q.2.2 Kind.validator (by decide)]
    · simp [options.enabled, hv, hc, R.1, Q.1, writesOf_append, Q.2.1, readState,
        R.2.2 Kind.chart (by decide)]

/-- With a toggle switched off, the writer of that kind is not called in a poll cycle,
whatever the step budget. -/
theorem Statistics.statisticsLoop_disabled {σ : Type} (c : ChainConfig) (opt : options)
    (db : Db σ) (fuel : Nat) (s : σ) (k : Kind) (hK : opt.enabled k = false) :
    writesOf k (statisticsLoop c opt db fuel s).trace = [] := by
  unfold statisticsLoop
  cases hE : db.GetLatestEpoch s with
  | none => rfl
  | some latestEpoch =>
    simp only []
    cases hC : dayClock c latestEpoch with
    | panicked => rfl
    | notReady => rfl
    | ready cur prev =>
      simp only []
      cases k with
      | validator =>
        have hv : opt.statisticsValidatorToggle = false := hK
        simp only [hv]
        cases hc : opt.statisticsChartToggle
        · simp [writesOf]
        · simp only [Bool.false_eq_true, if_false, if_true, List.nil_append]
          split <;> exact catchUp_other_kind db Kind.chart Kind.validator (by decide) fuel prev s
      | chart =>
        have hc : opt.statisticsChartToggle = false := hK
        simp only [hc]
        cases hv : opt.statisticsValidatorToggle
        · simp [writesOf]
        · simp only [Bool.false_eq_true, if_false, if_true, List.append_nil]
          split <;> exact catchUp_other_kind db Kind.validator Kind.chart (by decide) fuel prev s

theorem Statistics.foldl_max_ge_acc (l : List Nat) : ∀ acc, acc ≤ l.foldl max acc := by
  induction l with
  | nil => intro acc; exact Nat.le_refl _
  | cons x xs ih =>
    intro acc
    exact Nat.le_trans (Nat.le_max_left acc x) (ih (max acc x))

theorem Statistics.foldl_max_ge_mem (l : List Nat) :
    ∀ acc d, d ∈ l → d ≤ l.foldl max acc := by
  induction l with
  | nil => intro acc d h; cases h
  | cons x xs ih =>
    intro acc d h
    rcases List.mem_cons.mp h with h | h
    · rw [h]
      exact Nat.le_trans (Nat.le_max_right acc x) (foldl_max_ge_acc xs (max acc x))
    · exact ih (max acc x) d h

theorem Statistics.foldl_max_le (l : List Nat) :
    ∀ acc m, acc ≤ m → (∀ d, d ∈ l → d ≤ m) → l.foldl max acc ≤ m := by
  induction l with
  | nil => intro acc m h _; exact h
  | cons x xs ih =>
    intro acc m h hx
    exact ih (max acc x) m (Nat.max_le.mpr ⟨h, hx x (List.mem_cons_self x xs)⟩)
      (fun d hd => hx d (List.mem_cons_of_mem x hd))

/-- The status query returns the greatest completed day. -/
theorem Statistics.maxCompletedDay_of_last (l : Ledger) (m : Nat) (h : IsLastCompleted l m) :
    maxCompletedDay l = m := by
  unfold maxCompletedDay
  apply Nat.le_antisymm
  · apply foldl_max_le _ 0 m (Nat.zero_le m)
    intro d hd
    simp only [List.mem_map, List.mem_filter] at hd
    obtain ⟨r, ⟨hr, hb⟩, rfl⟩ := hd
    exact h.2 r hr hb
  · apply foldl_max_ge_mem
    simp only [List.mem_map, List.mem_filter]
    exact ⟨(m, true), ⟨h.1, rfl⟩, rfl⟩

/-- The status query returns 0 on a table without completed entries. -/
theorem Statistics.maxCompletedDay_of_none (l : Ledger) (h : NoCompleted l) :
    maxCompletedDay l = 0 := by
  unfold maxCompletedDay
  have : l.filter (fun r => r.2) = [] := by
    rw [List.filter_eq_nil_iff]
    intro r hr hb
    rw [h r hr] at hb
    cases hb
  rw [this]
  rfl

theorem Statistics.abortShape_nil (P : Prop) (h : ¬ P) : AbortShape [] P := by
  refine ⟨[], ?_, Or.inl ⟨h, rfl⟩⟩
  intro e he
  cases he

theorem Statistics.abortShape_failed (P : Prop) (h : P) (k : Kind) (d : Int) :
    AbortShape [Event.delete k d false] P := by
  refine ⟨[], ?_, Or.inr ⟨h, k, d, rfl⟩⟩
  intro e he
  cases he

theorem Statistics.abortShape_append (a b : List Event) (P : Prop)
    (ha : ∀ e ∈ a, e.isFailedDelete = false) (hb : AbortShape b P) :
    AbortShape (a ++ b) P := by
  obtain ⟨good, hg, h⟩ := hb
  refine ⟨a ++ good, ?_, ?_⟩
  · intro e he
    rcases List.mem_append.mp he with h1 | h1
    · exact ha e h1
    · exact hg e h1
  · rcases h with ⟨hn, ht⟩ | ⟨hf, k, d, ht⟩
    · exact Or.inl ⟨hn, by rw [ht]⟩
    · exact Or.inr ⟨hf, k, d, by rw [ht, List.append_assoc]⟩

theorem Statistics.abortShape_mono (t : List Event) (P Q : Prop) (h : P ↔ Q)
    (ht : AbortShape t P) : AbortShape t Q := by
  obtain ⟨good, hg, hc⟩ := ht
  refine ⟨good, hg, ?_⟩
  rcases hc with ⟨hn, e⟩ | ⟨hf, e⟩
  · exact Or.inl ⟨fun q => hn (h.mpr q), e⟩
  · exact Or.inr ⟨h.mp hf, e⟩

/-- A trace of that shape without a failed delete is not fatal. -/
theorem Statistics.abortShape_clean (t : List Event) (P : Prop) (h : AbortShape t P)
    (hc : ∀ e ∈ t, e.isFailedDelete = false) : ¬ P := by
  intro hp
  obtain ⟨good, _, hs⟩ := h
  rcases hs with ⟨hn, _⟩ | ⟨_, k, d, e⟩
  · exact hn hp
  · have := hc (Event.delete k d false) (by rw [e]; simp)
    simp [Event.isFailedDelete] at this

/-- The trace of a backfill loop stops at the first failed delete. -/
theorem Statistics.backfillLoop_shape {σ : Type} (db : Db σ) (k : Kind) (lastDay : Nat) :
    ∀ (fuel d : Nat) (s : σ),
      AbortShape (backfillLoop db k fuel d lastDay s).trace
        ((backfillLoop db k fuel d lastDay s).status = LoopStatus.fatal) := by
  intro fuel
  induction fuel with
  | zero =>
    intro d s
    apply abortShape_nil
    simp only [backfillLoop]
    split <;> simp
  | succ n ih =>
    intro d s
    by_cases hd : d ≤ lastDay
    · cases hdel : (db.ExecDelete k (d : Int) s).1
      · simp only [backfillLoop, hd, if_true, resetAndWrite, hdel]
        exact abortShape_failed _ (by simp) k d
      · simp only [backfillLoop, hd, if_true, resetAndWrite, hdel]
        apply abortShape_append
        · intro e he
          simp only [List.mem_cons, List.mem_singleton, List.not_mem_nil, or_false] at he
          rcases he with rfl | rfl <;> rfl
        · exact ih _ _
    · simp only [backfillLoop, hd, if_false]
      exact abortShape_nil _ (by simp)

/-- A backfill loop whose range ends below the greatest 64-bit value, run with a
sufficient step budget and without a fatal exit, makes exactly the planned calls. -/
theorem Statistics.backfillLoop_complete {σ : Type} (db : Db σ) (k : Kind) (lastDay : Nat)
    (hl : lastDay + 1 < 18446744073709551616) :
    ∀ (fuel d : Nat) (s : σ), lastDay + 1 - d ≤ fuel →
      (backfillLoop db k fuel d lastDay s).status ≠ LoopStatus.fatal →
      (backfillLoop db k fuel d lastDay s).status = LoopStatus.done ∧
      (backfillLoop db k fuel d lastDay s).trace.map Event.call = backfillPlan k d lastDay := by
  intro fuel
  induction fuel with
  | zero =>
    intro d s hf _
    have hd : ¬ d ≤ lastDay := by omega
    simp [backfillLoop, hd, backfillPlan, daysFromTo_empty d lastDay (by omega)]
  | succ n ih =>
    intro d s hf hnf
    by_cases hd : d ≤ lastDay
    · have hw : (d + 1) % 18446744073709551616 = d + 1 := Nat.mod_eq_of_lt (by omega)
      cases hdel : (db.ExecDelete k (d : Int) s).1
      · simp [backfillLoop, hd, resetAndWrite, hdel] at hnf
      · simp only [backfillLoop, hd, if_true, resetAndWrite, hdel, hw] at hnf ⊢
        obtain ⟨h1, h2⟩ := ih (d + 1) _ (by omega) hnf
        refine ⟨h1, ?_⟩
        rw [List.map_append, h2]
        simp [backfillPlan, daysFromTo_cons d lastDay hd, resetThenWrite, Event.call]
    · simp [backfillLoop, hd, backfillPlan, daysFromTo_empty d lastDay (by omega)]

/-- A non-fatal trace of that shape holds no failed delete. -/
theorem Statistics.abortShape_good (t : List Event) (P : Prop) (h : AbortShape t P)
    (hn : ¬ P) : ∀ e ∈ t, e.isFailedDelete = false := by
  obtain ⟨good, hg, hs⟩ := h
  rcases hs with ⟨_, e⟩ | ⟨hp, _⟩
  · rw [e]; exact hg
  · exact absurd hp hn

/-- The trace of the range branch stops at the first failed delete. -/
theorem Statistics.backfillRange_shape {σ : Type} (f : Flags) (db : Db σ)
    (fuel firstDay lastDay : Nat) (s : σ) :
    AbortShape (backfillRange f db fuel firstDay lastDay s).trace
      ((backfillRange f db fuel firstDay lastDay s).status = MainStatus.fatal) := by
  have key : ∀ (v : BackfillRun σ) (chOf : σ → BackfillRun σ),
      AbortShape v.trace (v.status = LoopStatus.fatal) →
      (∀ s1, AbortShape (chOf s1).trace ((chOf s1).status = LoopStatus.fatal)) →
      AbortShape
        (match v.status with
          | LoopStatus.fatal => MainRun.mk MainStatus.fatal v.trace v.state
          | LoopStatus.outOfFuel => MainRun.mk MainStatus.outOfFuel v.trace v.state
          | LoopStatus.done =>
            match (chOf v.state).status with
            | LoopStatus.fatal =>
              MainRun.mk MainStatus.fatal (v.trace ++ (chOf v.state).trace) (chOf v.state).state
            | LoopStatus.outOfFuel =>
              MainRun.mk MainStatus.outOfFuel (v.trace ++ (chOf v.state).trace)
                (chOf v.state).state
            | LoopStatus.done =>
              MainRun.mk MainStatus.returned (v.trace ++ (chOf v.state).trace)
                (chOf v.state).state).trace
        ((match v.status with
          | LoopStatus.fatal => MainRun.mk MainStatus.fatal v.trace v.state
          | LoopStatus.outOfFuel => MainRun.mk MainStatus.outOfFuel v.trace v.state
          | LoopStatus.done =>
            match (chOf v.state).status with
            | LoopStatus.fatal =>
              MainRun.mk MainStatus.fatal (v.trace ++ (chOf v.state).trace) (chOf v.state).state
            | LoopStatus.outOfFuel =>
              MainRun.mk MainStatus.outOfFuel (v.trace ++ (chOf v.state).trace)
                (chOf v.state).state
            | LoopStatus.done =>
              MainRun.mk MainStatus.returned (v.trace ++ (chOf v.state).trace)
                (chOf v.state).state).status = MainStatus.fatal) := by
    intro v chOf hv hch
    cases hs : v.status with
    | fatal =>
      simp only []
      exact abortShape_mono _ _ _ (by simp [hs]) hv
    | outOfFuel =>
      simp only []
      exact abortShape_mono _ _ _ (by simp [hs]) hv
    | done =>
      simp only []
      have hgood := abortShape_good _ _ hv (by simp [hs])
      have hc := hch v.state
      cases hcs : (chOf v.state).status with
      | fatal =>
        simp only []
        exact abortShape_append _ _ _ hgood (abortShape_mono _ _ _ (by simp [hcs]) hc)
      | outOfFuel =>
        simp only []
        exact abortShape_append _ _ _ hgood (abortShape_mono _ _ _ (by simp [hcs]) hc)
      | done =>
        simp only []
        exact abortShape_append _ _ _ hgood (abortShape_mono _ _ _ (by simp [hcs]) hc)
  unfold backfillRange
  apply key
    (if f.statisticsValidatorToggle
      then backfillLoop db Kind.validator fuel firstDay lastDay s
      else BackfillRun.mk LoopStatus.done [] s)
    (fun s1 => if f.statisticsChartToggle
      then backfillLoop db Kind.chart fuel firstDay lastDay s1
      else BackfillRun.mk LoopStatus.done [] s1)
  · cases f.statisticsValidatorToggle
    · exact abortShape_nil _ (by simp)
    · exact backfillLoop_shape db Kind.validator lastDay fuel firstDay s
  · intro s1
    cases f.statisticsChartToggle
    · exact abortShape_nil _ (by simp)
    · exact backfillLoop_shape db Kind.chart lastDay fuel firstDay s1

/-- The range branch with a last day below the greatest 64-bit value, a sufficient step
budget and no fatal exit: it returns after exactly the planned calls. -/
theorem Statistics.backfillRange_complete {σ : Type} (f : Flags) (db : Db σ)
    (fuel firstDay lastDay : Nat) (s : σ)
    (hl : lastDay + 1 < 18446744073709551616) (hf : lastDay < fuel)
    (hnf : (backfillRange f db fuel firstDay lastDay s).status ≠ MainStatus.fatal) :
    (backfillRange f db fuel firstDay lastDay s).status = MainStatus.returned ∧
    (backfillRange f db fuel firstDay lastDay s).trace.map Event.call
      = rangePlan f firstDay lastDay := by
  have hV := backfillLoop_complete db Kind.validator lastDay hl fuel firstDay s (by omega)
  have hC := fun s1 =>
    backfillLoop_complete db Kind.chart lastDay hl fuel firstDay s1 (by omega)
  unfold backfillRange rangePlan at *
  cases hv : f.statisticsValidatorToggle <;> cases hc : f.statisticsChartToggle
  · simp
  · simp only [hv, hc, Bool.false_eq_true, if_false, if_true, List.nil_append] at hnf ⊢
    cases hs : (backfillLoop db Kind.chart fuel firstDay lastDay s).status with
    | fatal => simp [hs] at hnf
    | outOfFuel => have := (hC s (by simp [hs])).1; simp [hs] at this
    | done => simpa [hs] using (hC s (by simp [hs])).2
  · simp only [hv, hc, Bool.false_eq_true, if_false, if_true, List.append_nil] at hnf ⊢
    cases hs : (backfillLoop db Kind.validator fuel firstDay lastDay s).status with
    | fatal => simp [hs] at hnf
    | outOfFuel => have := (hV (by simp [hs])).1; simp [hs] at this
    | done => simpa [hs] using (hV (by simp [hs])).2
  · simp only [hv, hc, if_true] at hnf ⊢
    cases hs : (backfillLoop db Kind.validator fuel firstDay lastDay s).status with
    | fatal => simp [hs] at hnf
    | outOfFuel => have := (hV (by simp [hs])).1; simp [hs] at this
    | done =>
      simp only [hs] at hnf ⊢
      cases hs2 : (backfillLoop db Kind.chart fuel firstDay lastDay
          (backfillLoop db Kind.validator fuel firstDay lastDay s).state).status with
      | fatal => simp [hs2] at hnf
      | outOfFuel =>
        have := (hC (backfillLoop db Kind.validator fuel firstDay lastDay s).state
          (by simp [hs2])).1
        simp [hs2] at this
      | done =>
        simp only [List.map_append, true_and]
        rw [(hV (by simp [hs])).2,
          (hC (backfillLoop db Kind.validator fuel firstDay lastDay s).state
            (by simp [hs2])).2]

/-- The value of a ready day clock. -/
theorem Statistics.dayClock_of_perDay (c : ChainConfig) (latestEpoch perDay : Nat)
    (hp : epochsPerDay c = some perDay) (hpos : 0 < perDay) (hle : perDay ≤ latestEpoch)
    (hU : latestEpoch < 18446744073709551616) :
    dayClock c latestEpoch = Clock.ready (latestEpoch / perDay) (latestEpoch / perDay - 1) := by
  have hne : perDay ≠ 0 := by omega
  have hnlt : ¬ latestEpoch < perDay := by omega
  have hcur : 1 ≤ latestEpoch / perDay := by
    rw [Nat.le_div_iff_mul_le hpos]; omega
  have hdl : latestEpoch / perDay ≤ latestEpoch := Nat.div_le_self _ _
  have hm : (latestEpoch / perDay + 18446744073709551615) % 18446744073709551616
      = latestEpoch / perDay - 1 := by omega
  have hng : ¬ (latestEpoch / perDay - 1 > latestEpoch / perDay) := by omega
  simp only [dayClock, hp, hnlt, if_false, goDiv, hne, hm, hng]

/-- The catch-up loop with a sufficient step budget makes exactly the writer calls of its
day range, with the writer's own outcomes, and leaves the store those calls produce. -/
theorem Statistics.catchUpLoop_effect {σ : Type} (db : Db σ) (k : Kind) (previousDay : Nat)
    (hp : previousDay + 1 < 18446744073709551616) :
    ∀ (fuel day : Nat) (s : σ), previousDay + 1 - day ≤ fuel →
      (catchUpLoop db k fuel day previousDay s).trace
        = (applyWrites db k (daysFromTo day previousDay) s).1 ∧
      (catchUpLoop db k fuel day previousDay s).state
        = (applyWrites db k (daysFromTo day previousDay) s).2 := by
  intro fuel
  induction fuel with
  | zero =>
    intro day s h
    have hd : previousDay < day := by omega
    simp [catchUpLoop, daysFromTo_empty _ _ hd, applyWrites]
  | succ n ih =>
    intro day s h
    by_cases hd : day ≤ previousDay
    · have hw : (day + 1) % 18446744073709551616 = day + 1 := Nat.mod_eq_of_lt (by omega)
      obtain ⟨h1, h2⟩ := ih (day + 1) (db.WriteForDay k (writerArg k day) s).2 (by omega)
      simp only [catchUpLoop, hd, if_true, hw, daysFromTo_cons _ _ hd, applyWrites, h1, h2,
        and_self]
    · have hd2 : previousDay < day := by omega
      simp [catchUpLoop, hd, daysFromTo_empty _ _ hd2, applyWrites]

/-- The per-kind catch-up with a sufficient step budget, as an effect on the store. -/
theorem Statistics.catchUp_effect {σ : Type} (db : Db σ) (k : Kind) (fuel previousDay : Nat)
    (s : σ) (hp : previousDay + 1 < 18446744073709551616) (hf : previousDay < fuel) :
    (catchUp db k fuel previousDay s).trace = (catchUpEffect db k previousDay s).1 ∧
    (catchUp db k fuel previousDay s).state = (catchUpEffect db k previousDay s).2 := by
  unfold catchUp catchUpEffect
  by_cases h : startDay (db.GetMaxDay k s) ≤ previousDay ∨ startDay (db.GetMaxDay k s) = 0
  · simp only [h, if_true]
    exact catchUpLoop_effect db k previousDay hp fuel _ s (by omega)
  · simp only [h, if_false]
    have hlt : previousDay < startDay (db.GetMaxDay k s) := by omega
    simp [daysFromTo_empty _ _ hlt, applyWrites]

/-- A poll cycle whose clock is ready, run with a sufficient step budget, as an effect on
the store. -/
theorem Statistics.statisticsLoop_effect {σ : Type} (c : ChainConfig) (opt : options)
    (db : Db σ) (fuel : Nat) (s : σ) (latestEpoch currentDay previousDay : Nat)
    (hE : db.GetLatestEpoch s = some latestEpoch)
    (hU : latestEpoch < 18446744073709551616)
    (hC : dayClock c latestEpoch = Clock.ready currentDay previousDay)
    (hF : previousDay < fuel) :
    (statisticsLoop c opt db fuel s).trace = (cycleEffect opt db previousDay s).1 ∧
    (statisticsLoop c opt db fuel s).state = (cycleEffect opt db previousDay s).2 := by
  obtain ⟨perDay, _, _, _, hcur, hprev0⟩ := dayClock_ready c latestEpoch currentDay previousDay hC
  have hprev := hprev0 hU
  have hcl : currentDay ≤ latestEpoch := by rw [hcur]; exact Nat.div_le_self _ _
  have hp : previousDay + 1 < 18446744073709551616 := by omega
  have RV := catchUp_run db Kind.validator fuel previousDay s hp hF
  have EV := catchUp_effect db Kind.validator fuel previousDay s hp hF
  unfold statisticsLoop cycleEffect
  simp only [hE, hC]
  cases hv : opt.statisticsValidatorToggle <;> cases hc : opt.statisticsChartToggle
  · simp
  · have RC := catchUp_run db Kind.chart fuel previousDay s hp hF
    have EC := catchUp_effect db Kind.chart fuel previousDay s hp hF
    simp [RC.1, EC.1, EC.2]
  · simp [RV.1, EV.1, EV.2]
  · have RC := catchUp_run db Kind.chart fuel previousDay
      (catchUp db Kind.validator fuel previousDay s).state hp hF
    have EC := catchUp_effect db Kind.chart fuel previousDay
      (catchUp db Kind.validator fuel previousDay s).state hp hF
    rw [EV.2] at RC EC
    simp [RV.1, RC.1, EV.1, EV.2, EC.1, EC.2]

/-- The backfill loop with a last day below the greatest 64-bit value and a sufficient
step budget makes exactly the calls of its day range up to the first failed delete, with
the outcomes the store and the writer returned. -/
theorem Statistics.backfillLoop_effect {σ : Type} (db : Db σ) (k : Kind) (lastDay : Nat)
    (hl : lastDay + 1 < 18446744073709551616) :
    ∀ (fuel d : Nat) (s : σ), lastDay + 1 - d ≤ fuel →
      (backfillLoop db k fuel d lastDay s).trace
        = (applyResets db k (daysFromTo d lastDay) s).1 ∧
      (backfillLoop db k fuel d lastDay s).state
        = (applyResets db k (daysFromTo d lastDay) s).2 := by
  intro fuel
  induction fuel with
  | zero =>
    intro d s hf
    have hd : ¬ d ≤ lastDay := by omega
    simp [backfillLoop, daysFromTo_empty d lastDay (by omega), applyResets]
  | succ n ih =>
    intro d s hf
    by_cases hd : d ≤ lastDay
    · have hw : (d + 1) % 18446744073709551616 = d + 1 := Nat.mod_eq_of_lt (by omega)
      cases hdel : (db.ExecDelete k (d : Int) s).1
      · simp [backfillLoop, hd, resetAndWrite, hdel, daysFromTo_cons d lastDay hd, applyResets]
      · obtain ⟨h1, h2⟩ := ih (d + 1)
          (db.WriteForDay k (writerArg k (d : Int)) (db.ExecDelete k (d : Int) s).2).2
          (by omega)
        simp [backfillLoop, hd, resetAndWrite, hdel, hw, daysFromTo_cons d lastDay hd,
          applyResets, h1, h2]
    · simp [backfillLoop, hd, daysFromTo_empty d lastDay (by omega), applyResets]

/-- On a store whose driver refuses large day arguments, a backfill loop whose last day
exceeds the signed 64-bit maximum ends fatally at a failed delete. -/
theorem Statistics.backfillLoop_fatal_large {σ : Type} (db : Db σ) (k : Kind) (lastDay : Nat)
    (hdrv : db.RefusesLargeDays) (hbig : 9223372036854775808 ≤ lastDay) :
    ∀ (fuel d : Nat) (s : σ), d ≤ lastDay → lastDay + 1 - d ≤ fuel →
      (backfillLoop db k fuel d lastDay s).status = LoopStatus.fatal := by
  intro fuel
  induction fuel with
  | zero => intro d s hd hf; omega
  | succ n ih =>
    intro d s hd hf
    cases hdel : (db.ExecDelete k (d : Int) s).1
    · simp [backfillLoop, hd, resetAndWrite, hdel]
    · have hsmall : d ≤ 9223372036854775807 := by
        by_contra hgt
        have := hdrv k (d : Int) s (by omega)
        rw [hdel] at this
        cases this
      have hw : (d + 1) % 18446744073709551616 = d + 1 := Nat.mod_eq_of_lt (by omega)
      simp only [backfillLoop, hd, if_true, resetAndWrite, hdel, hw]
      exact ih (d + 1) _ (by omega) (by omega)

/-- Below the signed 64-bit maximum both writers receive the day itself. -/
theorem Statistics.backfillPlan_plain (k : Kind) (first last : Nat)
    (h : last < 9223372036854775808) :
    backfillPlan k first last = plainBackfillPlan k first last := by
  unfold backfillPlan plainBackfillPlan
  have hc : ∀ d ∈ daysFromTo first last,
      resetThenWrite k (d : Int) = [Call.delete k (d : Int), Call.write k (d : Int)] := by
    intro d hd
    rw [mem_daysFromTo] at hd
    have ha : writerArg k (d : Int) = (d : Int) := by
      cases k with
      | validator => simp only [writerArg, toUint64]; omega
      | chart => simp only [writerArg, toInt64]; omega
    simp [resetThenWrite, ha]
  generalize daysFromTo first last = l at hc
  induction l with
  | nil => rfl
  | cons x xs ih =>
    simp only [List.flatMap_cons]
    rw [hc x (List.mem_cons_self x xs), ih (fun d hd => hc d (List.mem_cons_of_mem x hd))]

/-- The range branch with a last day below the greatest 64-bit value, a sufficient step
budget and no fatal exit, as an effect on the store. -/
theorem Statistics.backfillRange_effect {σ : Type} (f : Flags) (db : Db σ)
    (fuel firstDay lastDay : Nat) (s : σ)
    (hl : lastDay + 1 < 18446744073709551616) (hf : lastDay < fuel)
    (hnf : (backfillRange f db fuel firstDay lastDay s).status ≠ MainStatus.fatal) :
    (backfillRange f db fuel firstDay lastDay s).trace
      = (rangeEffect f db firstDay lastDay s).1 ∧
    (backfillRange f db fuel firstDay lastDay s).state
      = (rangeEffect f db firstDay lastDay s).2 := by
  have hV := backfillLoop_complete db Kind.validator lastDay hl fuel firstDay s (by omega)
  have hC := fun s1 =>
    backfillLoop_complete db Kind.chart lastDay hl fuel firstDay s1 (by omega)
  have eV := backfillLoop_effect db Kind.validator lastDay hl fuel firstDay s (by omega)
  have eC := fun s1 =>
    backfillLoop_effect db Kind.chart lastDay hl fuel firstDay s1 (by omega)
  unfold backfillRange rangeEffect at *
  cases hv : f.statisticsValidatorToggle <;> cases hc : f.statisticsChartToggle
  · simp
  · simp only [hv, hc, Bool.false_eq_true, if_false, if_true, List.nil_append] at hnf ⊢
    cases hs : (backfillLoop db Kind.chart fuel firstDay lastDay s).status with
    | fatal => simp [hs] at hnf
    | outOfFuel => have := (hC s (by simp [hs])).1; simp [hs] at this
    | done => simpa [hs] using eC s
  · simp only [hv, hc, Bool.false_eq_true, if_false, if_true, List.append_nil] at hnf ⊢
    cases hs : (backfillLoop db Kind.validator fuel firstDay lastDay s).status with
    | fatal => simp [hs] at hnf
    | outOfFuel => have := (hV (by simp [hs])).1; simp [hs] at this
    | done => simpa [hs] using eV
  · simp only [hv, hc, if_true] at hnf ⊢
    cases hs : (backfillLoop db Kind.validator fuel firstDay lastDay s).status with
    | fatal => simp [hs] at hnf
    | outOfFuel => have := (hV (by simp [hs])).1; simp [hs] at this
    | done =>
      simp only [hs] at hnf ⊢
      have eC2 := eC (backfillLoop db Kind.validator fuel firstDay lastDay s).state
      cases hs2 : (backfillLoop db Kind.chart fuel firstDay lastDay
          (backfillLoop db Kind.validator fuel firstDay lastDay s).state).status with
      | fatal => simp [hs2] at hnf
      | outOfFuel =>
        have := (hC (backfillLoop db Kind.validator fuel firstDay lastDay s).state
          (by simp [hs2])).1
        simp [hs2] at this
      | done =>
        rw [eV.2] at eC2
        simp only [eV.1, eV.2, eC2.1, eC2.2, and_self]

end Lemmas

/-! ## Catch-up driver -/

section CatchUp

open Statistics

/-- C1: in a poll cycle whose clock is ready (`previousDay = currentDay - 1`) and whose
dataset kind is enabled, whatever the writers return, the writer of that kind is called
exactly once for each day from the derived starting day to `previousDay`, in strictly
increasing day order, and not at all when the starting day exceeds `previousDay`. The
calls are the store's own writer calls: every event carries the outcome the writer
returned, each call runs on the store the previous call left, and the cycle ends on the
store the last call produced. -/
theorem Statistics.statisticsLoop_writes_pending_days {σ : Type} (c : ChainConfig)
    (opt : options) (db : Db σ) (fuel : Nat) (s : σ) (k : Kind)
    (latestEpoch currentDay previousDay : Nat)
    (hE : db.GetLatestEpoch s = some latestEpoch)
    (hU : latestEpoch < 18446744073709551616)
    (hC : dayClock c latestEpoch = Clock.ready currentDay previousDay)
    (hK : opt.enabled k = true)
    (hF : previousDay < fuel) :
    (statisticsLoop c opt db fuel s).status = CycleStatus.reported ∧
    previousDay + 1 = currentDay ∧
    writesOf k (statisticsLoop c opt db fuel s).trace
      = (daysFromTo (startDay (db.GetMaxDay k (readState opt db fuel previousDay s k)))
          previousDay).map (fun (d : Nat) => writerArg k (d : Int)) ∧
    (writesOf k (statisticsLoop c opt db fuel s).trace).Nodup ∧
    List.Pairwise (fun x y => x < y)
      (daysFromTo (startDay (db.GetMaxDay k (readState opt db fuel previousDay s k)))
        previousDay) ∧
    (∀ d, d ∈ daysFromTo (startDay (db.GetMaxDay k (readState opt db fuel previousDay s k)))
        previousDay
      ↔ startDay (db.GetMaxDay k (readState opt db fuel previousDay s k)) ≤ d
        ∧ d ≤ previousDay) ∧
    (previousDay < startDay (db.GetMaxDay k (readState opt db fuel previousDay s k)) →
      writesOf k (statisticsLoop c opt db fuel s).trace = []) ∧
    (k = Kind.validator ∨ previousDay < 9223372036854775808 →
      writesOf k (statisticsLoop c opt db fuel s).trace
        = (daysFromTo (startDay (db.GetMaxDay k (readState opt db fuel previousDay s k)))
            previousDay).map (fun (d : Nat) => (d : Int))) ∧
    (statisticsLoop c opt db fuel s).trace = (cycleEffect opt db previousDay s).1 ∧
    (statisticsLoop c opt db fuel s).state = (cycleEffect opt db previousDay s).2 := by
  obtain ⟨heT, heS⟩ :=
    statisticsLoop_effect c opt db fuel s latestEpoch currentDay previousDay hE hU hC hF
  obtain ⟨hst, hw⟩ :=
    statisticsLoop_ready_run c opt db fuel s latestEpoch currentDay previousDay hE hU hC hF
  obtain ⟨perDay, _, _, _, hcur, hprev0⟩ :=
    dayClock_ready c latestEpoch currentDay previousDay hC
  have hprev := hprev0 hU
  have hcl : currentDay ≤ latestEpoch := by rw [hcur]; exact Nat.div_le_self _ _
  have hwk := (hw k).1 hK
  refine ⟨hst, hprev, hwk, ?_, daysFromTo_increasing _ _, fun d => mem_daysFromTo _ _ d, ?_,
    ?_, heT, heS⟩
  · rw [hwk]
    refine List.Nodup.map_on ?_ ?_
    · intro a ha b hb hab
      rw [mem_daysFromTo] at ha hb
      exact writerArg_injective k a b (by omega) (by omega) hab
    · exact (daysFromTo_increasing _ _).imp (fun h => Nat.ne_of_lt h)
  · intro hlt
    rw [hwk, daysFromTo_empty _ _ hlt]
    rfl
  · intro hk
    rw [hwk]
    apply List.map_congr_left
    intro d hd
    rw [mem_daysFromTo] at hd
    rcases hk with hk | hk
    · rw [hk]
      simp only [writerArg, toUint64]
      omega
    · cases k with
      | validator =>
        simp only [writerArg, toUint64]
        omega
      | chart =>
        simp only [writerArg, toInt64]
        omega

/-- Witness for C1: the three scenarios of the specification (empty table and day 3,
day 2 complete and day 3, day 2 complete and day 1), and a cycle over days 0, 1, 2 whose
writers fail on day 1: the failure is in the trace and days 0 and 2 are in the tables. -/
theorem Statistics.statisticsLoop_writes_pending_days_witness :
    writesOf Kind.validator
        (statisticsLoop mainnet bothOn noFailure 10 (World.mk 900 [] [])).trace
      = [0, 1, 2, 3] ∧
    writesOf Kind.validator
        (statisticsLoop mainnet bothOn noFailure 10 (World.mk 900 [(2, true)] [])).trace
      = [3] ∧
    writesOf Kind.validator
        (statisticsLoop mainnet bothOn noFailure 10 (World.mk 450 [(2, true)] [])).trace
      = [] ∧
    (statisticsLoop mainnet bothOn failOnDayOne 10 (World.mk 675 [] [])).trace
      = [Event.write Kind.validator 0 true, Event.write Kind.validator 1 false,
         Event.write Kind.validator 2 true, Event.write Kind.chart 0 true,
         Event.write Kind.chart 1 false, Event.write Kind.chart 2 true] ∧
    (statisticsLoop mainnet bothOn failOnDayOne 10 (World.mk 675 [] [])).state
      = World.mk 675 [(2, true), (0, true)] [(2, true), (0, true)] :=
  ⟨(Statistics.statisticsLoop_writes_pending_days mainnet bothOn noFailure 10
      (World.mk 900 [] []) Kind.validator 900 4 3 rfl (by decide) (by decide) rfl
      (by decide)).2.2.1.trans (by decide),
   (Statistics.statisticsLoop_writes_pending_days mainnet bothOn noFailure 10
      (World.mk 900 [(2, true)] []) Kind.validator 900 4 3 rfl (by decide) (by decide) rfl
      (by decide)).2.2.1.trans (by decide),
   (Statistics.statisticsLoop_writes_pending_days mainnet bothOn noFailure 10
      (World.mk 450 [(2, true)] []) Kind.validator 450 2 1 rfl (by decide) (by decide) rfl
      (by decide)).2.2.2.2.2.2.1 (by decide),
   (Statistics.statisticsLoop_writes_pending_days mainnet bothOn failOnDayOne 10
      (World.mk 675 [] []) Kind.validator 675 3 2 rfl (by decide) (by decide) rfl
      (by decide)).2.2.2.2.2.2.2.2.1.trans (by decide),
   (Statistics.statisticsLoop_writes_pending_days mainnet bothOn failOnDayOne 10
      (World.mk 675 [] []) Kind.validator 675 3 2 rfl (by decide) (by decide) rfl
      (by decide)).2.2.2.2.2.2.2.2.2.trans (by decide)⟩

/-- C5: when the latest epoch is below `epochsPerDay = 86400 / secondsPerSlot /
slotsPerEpoch` the poll cycle reports not ready and makes no call at all, so no writer of
either kind runs; and a current day of 0 never comes with a writer call. -/
theorem Statistics.statisticsLoop_not_ready {σ : Type} (c : ChainConfig) (opt : options)
    (db : Db σ) (fuel : Nat) (s : σ) (latestEpoch : Nat)
    (hE : db.GetLatestEpoch s = some latestEpoch) :
    (latestEpoch < 86400 / c.SecondsPerSlot / c.SlotsPerEpoch →
      (statisticsLoop c opt db fuel s).status = CycleStatus.notReady ∧
      (statisticsLoop c opt db fuel s).trace = [] ∧
      ∀ k, writesOf k (statisticsLoop c opt db fuel s).trace = []) ∧
    (latestEpoch / (86400 / c.SecondsPerSlot / c.SlotsPerEpoch) = 0 →
      ∀ k, writesOf k (statisticsLoop c opt db fuel s).trace = []) := by
  constructor
  · intro hlt
    have hs : 0 < c.SecondsPerSlot := by
      rcases Nat.eq_zero_or_pos c.SecondsPerSlot with h | h
      · rw [h] at hlt; simp at hlt
      · exact h
    have he : 0 < c.SlotsPerEpoch := by
      rcases Nat.eq_zero_or_pos c.SlotsPerEpoch with h | h
      · rw [h] at hlt; simp at hlt
      · exact h
    have hp := epochsPerDay_eq c hs he
    have hC : dayClock c latestEpoch = Clock.notReady := by
      simp [dayClock, hp, hlt]
    have ht : (statisticsLoop c opt db fuel s).trace = [] := by
      simp [statisticsLoop, hE, hC]
    refine ⟨by simp [statisticsLoop, hE, hC], ht, ?_⟩
    intro k; rw [ht]; rfl
  · intro hz k
    have ht : (statisticsLoop c opt db fuel s).trace = [] := by
      apply statisticsLoop_trace_nil c opt db fuel s latestEpoch hE
      intro cur prev hC
      obtain ⟨perDay, hp, hpos, hle, _, _⟩ := dayClock_ready c latestEpoch cur prev hC
      obtain ⟨he, hs⟩ := epochsPerDay_some c perDay hp
      have hq := epochsPerDay_eq c hs he
      rw [hp] at hq
      have hpe : perDay = 86400 / c.SecondsPerSlot / c.SlotsPerEpoch := Option.some.inj hq
      rw [← hpe] at hz
      have := (Nat.div_eq_zero_iff hpos).mp hz
      omega
    rw [ht]; rfl

/-- Witness for C5: epoch 224 on a chain with 225 epochs per day. -/
theorem Statistics.statisticsLoop_not_ready_witness :
    (statisticsLoop mainnet bothOn noFailure 10 (World.mk 224 [] [])).status
      = CycleStatus.notReady ∧
    (statisticsLoop mainnet bothOn noFailure 10 (World.mk 224 [] [])).trace = [] :=
  ⟨((Statistics.statisticsLoop_not_ready mainnet bothOn noFailure 10 (World.mk 224 [] [])
      224 rfl).1 (by decide)).1,
   ((Statistics.statisticsLoop_not_ready mainnet bothOn noFailure 10 (World.mk 224 [] [])
      224 rfl).1 (by decide)).2.1⟩

/-- C2 (amended): on a table store whose read succeeds, the starting day is 0 when the
table holds no completed entry and also when the greatest completed day is day 0; it is
`lastCompletedDay + 1` when the greatest completed day is at least 1 (and below the
64-bit maximum). -/
theorem Statistics.startDay_of_ledger (writerFails : Kind → Int → Bool)
    (deleteFails : Kind → Int → Bool) (w : World) (k : Kind) :
    (NoCompleted (w.ledger k) →
      startDay ((ledgerDb writerFails (fun _ => false) deleteFails).GetMaxDay k w) = 0) ∧
    (IsLastCompleted (w.ledger k) 0 →
      startDay ((ledgerDb writerFails (fun _ => false) deleteFails).GetMaxDay k w) = 0) ∧
    (∀ m, IsLastCompleted (w.ledger k) m → 1 ≤ m → m + 1 < 18446744073709551616 →
      startDay ((ledgerDb writerFails (fun _ => false) deleteFails).GetMaxDay k w)
        = m + 1) := by
  have hr : (ledgerDb writerFails (fun _ => false) deleteFails).GetMaxDay k w
      = some (maxCompletedDay (w.ledger k)) := by
    simp [ledgerDb]
  rw [hr]
  refine ⟨?_, ?_, ?_⟩
  · intro h
    simp [startDay, maxCompletedDay_of_none _ h]
  · intro h
    simp [startDay, maxCompletedDay_of_last _ 0 h]
  · intro m h h1 h2
    have hm : m ≠ 0 := by omega
    simp [startDay, maxCompletedDay_of_last _ m h, hm, Nat.mod_eq_of_lt h2]

/-- Witness for C2 (amended): day 2 is the greatest completed day, the start is day 3. -/
theorem Statistics.startDay_of_ledger_witness :
    startDay (noFailure.GetMaxDay Kind.validator (World.mk 900 [(0, true), (2, true)] []))
      = 2 + 1 :=
  (Statistics.startDay_of_ledger (fun _ _ => false) (fun _ _ => false)
    (World.mk 900 [(0, true), (2, true)] []) Kind.validator).2.2 2
    (by decide) (by decide) (by decide)

/-- Counterexample to C2 as stated: with day 0 the only completed day the starting day is
0, not 1, and the cycle calls the writer for day 0 again. -/
theorem Statistics.startDay_after_day_zero :
    IsLastCompleted [(0, true)] 0 ∧
    startDay (noFailure.GetMaxDay Kind.validator (World.mk 450 [(0, true)] [])) = 0 ∧
    startDay (noFailure.GetMaxDay Kind.validator (World.mk 450 [(0, true)] [])) ≠ 0 + 1 ∧
    writesOf Kind.validator
        (statisticsLoop mainnet bothOn noFailure 10 (World.mk 450 [(0, true)] [])).trace
      = [0, 1] :=
  ⟨by decide, by decide, by decide, by decide⟩

/-- C8: evaluation of the code where reading the greatest completed day fails: the
variable keeps its zero value and the cycle calls the writer of that kind for every day
from 0 to `previousDay`. -/
theorem Statistics.statisticsLoop_read_failure {σ : Type} (c : ChainConfig)
    (opt : options) (db : Db σ) (fuel : Nat) (s : σ) (k : Kind)
    (latestEpoch currentDay previousDay : Nat)
    (hE : db.GetLatestEpoch s = some latestEpoch)
    (hU : latestEpoch < 18446744073709551616)
    (hC : dayClock c latestEpoch = Clock.ready currentDay previousDay)
    (hK : opt.enabled k = true)
    (hF : previousDay < fuel)
    (hR : db.GetMaxDay k (readState opt db fuel previousDay s k) = none) :
    (statisticsLoop c opt db fuel s).status = CycleStatus.reported ∧
    writesOf k (statisticsLoop c opt db fuel s).trace
      = (daysFromTo 0 previousDay).map (fun (d : Nat) => writerArg k (d : Int)) := by
  obtain ⟨hst, hw⟩ :=
    statisticsLoop_ready_run c opt db fuel s latestEpoch currentDay previousDay hE hU hC hF
  refine ⟨hst, ?_⟩
  rw [(hw k).1 hK, hR]
  rfl

/-- Witness for C8: the validator table has day 2 complete, the read fails, the previous
day is 3, and days 0, 1, 2, 3 are all written. -/
theorem Statistics.statisticsLoop_read_failure_witness :
    validatorReadFails.GetMaxDay Kind.validator (World.mk 900 [(2, true)] []) = none ∧
    writesOf Kind.validator
        (statisticsLoop mainnet bothOn validatorReadFails 10
          (World.mk 900 [(2, true)] [])).trace
      = [0, 1, 2, 3] :=
  ⟨rfl,
   (Statistics.statisticsLoop_read_failure mainnet bothOn validatorReadFails 10
      (World.mk 900 [(2, true)] []) Kind.validator 900 4 3 rfl (by decide) (by decide) rfl
      (by decide) rfl).2.trans (by decide)⟩

/-- C9: evaluation of the code: the `opt` value built in `main` never carries a set chart
toggle, the `charts.enabled` flag lands in the validator toggle, and so no poll cycle of
continuous operation calls the chart-series writer; with `charts.enabled` set and four
pending days the validator writer runs instead. -/
theorem Statistics.continuous_chart_never_written :
    (∀ f : Flags, (mainOptions f).statisticsChartToggle = false ∧
      (mainOptions f).statisticsValidatorToggle = f.statisticsChartToggle) ∧
    (∀ (σ : Type) (c : ChainConfig) (f : Flags) (db : Db σ) (fuel : Nat) (s : σ),
      writesOf Kind.chart (continuousCycle c f db fuel s).trace = []) ∧
    (main (loopFlags false true) noFailure 10 (World.mk 900 [] [])).status
      = MainStatus.background true true ∧
    writesOf Kind.chart
        (continuousCycle mainnet (loopFlags false true) noFailure 10
          (World.mk 900 [] [])).trace = [] ∧
    writesOf Kind.validator
        (continuousCycle mainnet (loopFlags false true) noFailure 10
          (World.mk 900 [] [])).trace = [0, 1, 2, 3] := by
  refine ⟨fun f => ⟨rfl, rfl⟩, ?_, by decide, by decide, by decide⟩
  intro σ c f db fuel s
  exact statisticsLoop_disabled c (mainOptions f) db fuel s Kind.chart rfl

/-- C10 (amended): for positive chain constants the code's division order gives
`epochsPerDay = 86400 / secondsPerSlot / slotsPerEpoch`; when moreover
`secondsPerSlot * slotsPerEpoch <= 86400` the day computation does not fault and yields
not ready or the day index `latestEpoch / epochsPerDay`; when the product exceeds 86400
the computation divides by zero. -/
theorem Statistics.dayClock_defined (c : ChainConfig) (latestEpoch : Nat)
    (hs : 0 < c.SecondsPerSlot) (he : 0 < c.SlotsPerEpoch)
    (hU : latestEpoch < 18446744073709551616) :
    epochsPerDay c = some (86400 / c.SecondsPerSlot / c.SlotsPerEpoch) ∧
    (c.SecondsPerSlot * c.SlotsPerEpoch ≤ 86400 →
      dayClock c latestEpoch ≠ Clock.panicked ∧
      (latestEpoch < 86400 / c.SecondsPerSlot / c.SlotsPerEpoch →
        dayClock c latestEpoch = Clock.notReady) ∧
      (86400 / c.SecondsPerSlot / c.SlotsPerEpoch ≤ latestEpoch →
        dayClock c latestEpoch
          = Clock.ready (latestEpoch / (86400 / c.SecondsPerSlot / c.SlotsPerEpoch))
              (latestEpoch / (86400 / c.SecondsPerSlot / c.SlotsPerEpoch) - 1))) ∧
    (86400 < c.SecondsPerSlot * c.SlotsPerEpoch →
      dayClock c latestEpoch = Clock.panicked) := by
  have hp := epochsPerDay_eq c hs he
  have hq : 86400 / c.SecondsPerSlot / c.SlotsPerEpoch
      = 86400 / (c.SecondsPerSlot * c.SlotsPerEpoch) := Nat.div_div_eq_div_mul _ _ _
  have hmul : 0 < c.SecondsPerSlot * c.SlotsPerEpoch := Nat.mul_pos hs he
  refine ⟨hp, ?_, ?_⟩
  · intro hprod
    have hpos : 0 < 86400 / c.SecondsPerSlot / c.SlotsPerEpoch := by
      rw [hq]; exact Nat.div_pos hprod hmul
    have hne : 86400 / c.SecondsPerSlot / c.SlotsPerEpoch ≠ 0 := by omega
    have hready : 86400 / c.SecondsPerSlot / c.SlotsPerEpoch ≤ latestEpoch →
        dayClock c latestEpoch
          = Clock.ready (latestEpoch / (86400 / c.SecondsPerSlot / c.SlotsPerEpoch))
              (latestEpoch / (86400 / c.SecondsPerSlot / c.SlotsPerEpoch) - 1) := by
      intro hle
      exact dayClock_of_perDay c latestEpoch _ hp hpos hle hU
    have hnot : latestEpoch < 86400 / c.SecondsPerSlot / c.SlotsPerEpoch →
        dayClock c latestEpoch = Clock.notReady := by
      intro hlt
      simp [dayClock, hp, hlt]
    refine ⟨?_, hnot, hready⟩
    intro hpan
    by_cases hlt : latestEpoch < 86400 / c.SecondsPerSlot / c.SlotsPerEpoch
    · rw [hnot hlt] at hpan; cases hpan
    · rw [hready (by omega)] at hpan; cases hpan
  · intro hbig
    have hz : 86400 / c.SecondsPerSlot / c.SlotsPerEpoch = 0 := by
      rw [hq]; exact Nat.div_eq_of_lt hbig
    simp [dayClock, hp, hz, goDiv]

/-- Witness for C10 (amended): 32 slots of 12 seconds, latest epoch 900: day 4. -/
theorem Statistics.dayClock_defined_witness :
    dayClock mainnet 900 = Clock.ready 4 3 :=
  (((Statistics.dayClock_defined mainnet 900 (by decide) (by decide) (by decide)).2.1
      (by decide)).2.2 (by decide)).trans (by decide)

/-- Counterexample to C10 as stated: 32 slots of 3600 seconds are positive constants, the
quotient `86400 / 32 / 3600` is 0, and the day computation divides by zero. -/
theorem Statistics.dayClock_divides_by_zero :
    0 < hourSlots.SecondsPerSlot ∧ 0 < hourSlots.SlotsPerEpoch ∧
    epochsPerDay hourSlots = some 0 ∧
    dayClock hourSlots 0 = Clock.panicked ∧
    (statisticsLoop hourSlots bothOn noFailure 10 (World.mk 0 [] [])).status
      = CycleStatus.panicked :=
  ⟨by decide, by decide, by decide, by decide, by decide⟩

/-- C3 (amended): with a writer that records completion exactly when it succeeds, a
cycle attempts exactly the days from the starting day (one past the greatest completed
day) to `previousDay`, whatever the writer returns. With days 0, 1, 2 pending and the
writer failing on day 1 only, the first cycle attempts days 0, 1 and 2 in that order and
completes days 0 and 2; a later cycle on the tables so left attempts exactly the days 3
to `previousDay`, and day 1 is not attempted again. -/
theorem Statistics.catchUp_resumes_after_greatest_completed (w : World) (fuel : Nat)
    (writerFails : Kind → Int → Bool)
    (hU : w.latestEpoch < 18446744073709551616) (hE : 225 ≤ w.latestEpoch)
    (hF : w.latestEpoch / 225 ≤ fuel) :
    writesOf Kind.validator
        (statisticsLoop mainnet bothOn
          (ledgerDb writerFails (fun _ => false) (fun _ _ => false)) fuel w).trace
      = (daysFromTo (startDay (some (maxCompletedDay w.validatorStatus)))
          (w.latestEpoch / 225 - 1)).map
          (fun (d : Nat) => writerArg Kind.validator (d : Int)) ∧
    writesOf Kind.validator
        (statisticsLoop mainnet bothOn failOnDayOne 10 (World.mk 675 [] [])).trace
      = [0, 1, 2] ∧
    (statisticsLoop mainnet bothOn failOnDayOne 10 (World.mk 675 [] [])).state.validatorStatus
      = [(2, true), (0, true)] ∧
    (w.validatorStatus
        = (statisticsLoop mainnet bothOn failOnDayOne 10
            (World.mk 675 [] [])).state.validatorStatus →
      writesOf Kind.validator
          (statisticsLoop mainnet bothOn
            (ledgerDb writerFails (fun _ => false) (fun _ _ => false)) fuel w).trace
        = (daysFromTo 3 (w.latestEpoch / 225 - 1)).map
            (fun (d : Nat) => writerArg Kind.validator (d : Int)) ∧
      (1 : Int) ∉ writesOf Kind.validator
          (statisticsLoop mainnet bothOn
            (ledgerDb writerFails (fun _ => false) (fun _ _ => false)) fuel w).trace) := by
  have hs1 : (statisticsLoop mainnet bothOn failOnDayOne 10
      (World.mk 675 [] [])).state.validatorStatus = [(2, true), (0, true)] := by decide
  have hp : epochsPerDay mainnet = some 225 := by decide
  have hcur : 1 ≤ w.latestEpoch / 225 := by omega
  have hC := dayClock_of_perDay mainnet w.latestEpoch 225 hp (by decide) hE hU
  have hrun := (statisticsLoop_ready_run mainnet bothOn
    (ledgerDb writerFails (fun _ => false) (fun _ _ => false)) fuel w
    w.latestEpoch (w.latestEpoch / 225) (w.latestEpoch / 225 - 1) rfl hU hC (by omega)).2
    Kind.validator
  have hw := hrun.1 rfl
  have hread : (ledgerDb writerFails (fun _ => false) (fun _ _ => false)).GetMaxDay
      Kind.validator (readState bothOn
        (ledgerDb writerFails (fun _ => false) (fun _ _ => false)) fuel
        (w.latestEpoch / 225 - 1) w Kind.validator)
      = some (maxCompletedDay w.validatorStatus) := by
    simp [readState, ledgerDb, World.ledger]
  rw [hread] at hw
  refine ⟨hw, by decide, hs1, ?_⟩
  intro hl
  rw [hs1] at hl
  have hstart : startDay (some (maxCompletedDay w.validatorStatus)) = 3 := by
    rw [hl]; decide
  rw [hstart] at hw
  refine ⟨hw, ?_⟩
  rw [hw]
  intro hmem
  obtain ⟨d, hd, he⟩ := List.mem_map.mp hmem
  rw [mem_daysFromTo] at hd
  simp only [writerArg, toUint64] at he
  omega

/-- Witness for C3 (amended): the next cycle at epoch 900 (previous day 3), with a writer
that still fails on day 1, attempts day 3 only. -/
theorem Statistics.catchUp_resumes_after_greatest_completed_witness :
    writesOf Kind.validator
        (statisticsLoop mainnet bothOn failOnDayOne 10
          (nextWorld (statisticsLoop mainnet bothOn failOnDayOne 10 (World.mk 675 [] [])).state
            900)).trace
      = [3] :=
  ((Statistics.catchUp_resumes_after_greatest_completed
    (nextWorld (statisticsLoop mainnet bothOn failOnDayOne 10 (World.mk 675 [] [])).state 900)
    10 (fun _ d => decide (d = 1)) (by decide) (by decide) (by decide)).2.2.2
      (by decide)).1.trans (by decide)

/-- Counterexample to C3 as stated: after the cycle in which the writer failed on day 1
only, day 1 has no completed entry, and the next cycle (here with a writer that never
fails) attempts day 3 without attempting day 1; with an unchanged previous day it attempts
nothing. -/
theorem Statistics.failed_day_below_completed_not_retried :
    writesOf Kind.validator
        (statisticsLoop mainnet bothOn failOnDayOne 10 (World.mk 675 [] [])).trace
      = [0, 1, 2] ∧
    (1, true) ∉
      (statisticsLoop mainnet bothOn failOnDayOne 10 (World.mk 675 [] [])).state.validatorStatus ∧
    writesOf Kind.validator
        (statisticsLoop mainnet bothOn noFailure 10
          (nextWorld (statisticsLoop mainnet bothOn failOnDayOne 10 (World.mk 675 [] [])).state
            900)).trace
      = [3] ∧
    writesOf Kind.validator
        (statisticsLoop mainnet bothOn noFailure 10
          (nextWorld (statisticsLoop mainnet bothOn failOnDayOne 10 (World.mk 675 [] [])).state
            675)).trace
      = [] :=
  ⟨by decide, by decide, by decide, by decide⟩

end CatchUp

/-! ## Backfill command path -/

section Backfill

open Statistics

theorem Statistics.parseDigits_nondigit :
    ∀ (cs : List Char) (n : Nat), (∃ ch ∈ cs, ¬ (48 ≤ ch.toNat ∧ ch.toNat ≤ 57)) →
      parseDigits cs n = none := by
  intro cs
  induction cs with
  | nil => intro n h; obtain ⟨ch, hm, _⟩ := h; cases hm
  | cons c cs ih =>
    intro n h
    obtain ⟨ch, hm, hnd⟩ := h
    unfold parseDigits
    by_cases hc : 48 ≤ c.toNat ∧ c.toNat ≤ 57
    · simp only [hc, and_self, if_true]
      have hin : ch ∈ cs := by
        rcases List.mem_cons.mp hm with e | e
        · rw [e] at hnd; exact absurd hc hnd
        · exact e
      split
      · rfl
      · split
        · rfl
        · exact ih _ ⟨ch, hin, hnd⟩
    · simp only [hc, if_false]

theorem Statistics.ParseUint_not_numeric (p : List Char) (h : ¬ IsNumeric p) :
    ParseUint p = none := by
  unfold ParseUint
  by_cases hp : p = []
  · simp [hp]
  · simp only [hp, if_false]
    apply parseDigits_nondigit
    unfold IsNumeric at h
    by_contra hall
    apply h
    refine ⟨hp, ?_⟩
    intro ch hm
    by_contra hnd
    exact hall ⟨ch, hm, hnd⟩

/-- The range branch of `main` once both bounds are parsed. -/
theorem Statistics.main_range {σ : Type} (f : Flags) (db : Db σ) (fuel : Nat) (s : σ)
    (firstDay lastDay : Nat) (hne : f.statisticsDaysToExport ≠ "")
    (hlen : 2 ≤ (Split f.statisticsDaysToExport.toList '-').length)
    (h0 : ParseUint ((Split f.statisticsDaysToExport.toList '-').getD 0 []) = some firstDay)
    (h1 : ParseUint ((Split f.statisticsDaysToExport.toList '-').getD 1 []) = some lastDay) :
    main f db fuel s = backfillRange f db fuel firstDay lastDay s := by
  unfold main
  rw [if_pos hne]
  dsimp only
  rw [if_neg (by omega), h0]
  dsimp only
  rw [h1]

/-- On an idealised store that accepts a delete for every day argument, a backfill loop
whose last day is the greatest 64-bit value would never leave its range; the driver's
argument limit (`Db.RefusesLargeDays`) rules such a store out. -/
theorem Statistics.backfillLoop_max_day {σ : Type} (db : Db σ) (k : Kind)
    (hdel : ∀ k d s, (db.ExecDelete k d s).1 = true) :
    ∀ (fuel d : Nat) (s : σ), d ≤ 18446744073709551615 →
      (backfillLoop db k fuel d 18446744073709551615 s).status = LoopStatus.outOfFuel := by
  intro fuel
  induction fuel with
  | zero => intro d s hd; simp [backfillLoop, hd]
  | succ n ih =>
    intro d s hd
    have hm : (d + 1) % 18446744073709551616 ≤ 18446744073709551615 := by omega
    simp only [backfillLoop, hd, if_true, resetAndWrite, hdel]
    exact ih _ _ hm

/-- C4: a range backfill `first-last` with unsigned 64-bit `first <= last`, on a store
behind the PostgreSQL driver, for the selected dataset kinds, any prior table state and
any writer behaviour: provided no delete of the run fails, `main` makes exactly the calls
delete(first), write(first), ..., delete(last), write(last) for each selected kind, the
days strictly increasing and each day's delete right before its write, every call being
the store's own call with its outcome and on the store the previous call left, and then
returns without starting the background loops. -/
theorem Statistics.main_range_backfill_exact {σ : Type} (f : Flags) (db : Db σ)
    (fuel : Nat) (s : σ) (firstDay lastDay : Nat)
    (hdrv : db.RefusesLargeDays)
    (hne : f.statisticsDaysToExport ≠ "")
    (hlen : 2 ≤ (Split f.statisticsDaysToExport.toList '-').length)
    (h0 : ParseUint ((Split f.statisticsDaysToExport.toList '-').getD 0 []) = some firstDay)
    (h1 : ParseUint ((Split f.statisticsDaysToExport.toList '-').getD 1 []) = some lastDay)
    (hle : firstDay ≤ lastDay) (hfuel : lastDay < fuel)
    (hdel : ∀ e ∈ (main f db fuel s).trace, e.isFailedDelete = false) :
    (main f db fuel s).status = MainStatus.returned ∧
    (main f db fuel s).trace.map Event.call = plainRangePlan f firstDay lastDay ∧
    (main f db fuel s).trace = (rangeEffect f db firstDay lastDay s).1 ∧
    (main f db fuel s).state = (rangeEffect f db firstDay lastDay s).2 ∧
    List.Pairwise (fun x y => x < y) (daysFromTo firstDay lastDay) ∧
    (∀ d, d ∈ daysFromTo firstDay lastDay ↔ firstDay ≤ d ∧ d ≤ lastDay) := by
  rw [main_range f db fuel s firstDay lastDay hne hlen h0 h1] at hdel ⊢
  have hnf := abortShape_clean _ _ (backfillRange_shape f db fuel firstDay lastDay s) hdel
  refine ⟨?_, ?_, ?_, ?_, daysFromTo_increasing _ _, fun d => mem_daysFromTo _ _ d⟩
  all_goals
    by_cases hbig : lastDay < 9223372036854775808
    · have hl : lastDay + 1 < 18446744073709551616 := by omega
      obtain ⟨c1, c2⟩ := backfillRange_complete f db fuel firstDay lastDay s hl hfuel hnf
      obtain ⟨e1, e2⟩ := backfillRange_effect f db fuel firstDay lastDay s hl hfuel hnf
      first
        | exact c1
        | exact e1
        | exact e2
        | (rw [c2]
           unfold rangePlan plainRangePlan
           rw [backfillPlan_plain _ _ _ hbig, backfillPlan_plain _ _ _ hbig])
    · cases hv : f.statisticsValidatorToggle
      · cases hc : f.statisticsChartToggle
        · simp [backfillRange, plainRangePlan, rangeEffect, hv, hc]
        · have hfat := backfillLoop_fatal_large db Kind.chart lastDay hdrv (by omega) fuel
            firstDay s hle (by omega)
          exact absurd (by simp [backfillRange, hv, hc, hfat]) hnf
      · have hfat := backfillLoop_fatal_large db Kind.validator lastDay hdrv (by omega) fuel
          firstDay s hle (by omega)
        exact absurd (by simp [backfillRange, hv, hfat]) hnf

/-- Witness for C4: the range `5-7` for both kinds, days 5, 6 and 7 already complete, a
store obeying the driver's limit and writers that fail on day 6: all twelve calls are
made in order, the failure on day 6 stops nothing, `main` returns, and days 5 and 7 are
complete again while day 6 is left without an entry. -/
theorem Statistics.main_range_backfill_exact_witness :
    (main (rangeFlags "5-7" true true) failOnDaySix 10 fiveToSevenComplete).status
      = MainStatus.returned ∧
    (main (rangeFlags "5-7" true true) failOnDaySix 10 fiveToSevenComplete).trace.map
        Event.call
      = [Call.delete Kind.validator 5, Call.write Kind.validator 5,
         Call.delete Kind.validator 6, Call.write Kind.validator 6,
         Call.delete Kind.validator 7, Call.write Kind.validator 7,
         Call.delete Kind.chart 5, Call.write Kind.chart 5,
         Call.delete Kind.chart 6, Call.write Kind.chart 6,
         Call.delete Kind.chart 7, Call.write Kind.chart 7] ∧
    (main (rangeFlags "5-7" true true) failOnDaySix 10 fiveToSevenComplete).trace
      = [Event.delete Kind.validator 5 true, Event.write Kind.validator 5 true,
         Event.delete Kind.validator 6 true, Event.write Kind.validator 6 false,
         Event.delete Kind.validator 7 true, Event.write Kind.validator 7 true,
         Event.delete Kind.chart 5 true, Event.write Kind.chart 5 true,
         Event.delete Kind.chart 6 true, Event.write Kind.chart 6 false,
         Event.delete Kind.chart 7 true, Event.write Kind.chart 7 true] ∧
    (main (rangeFlags "5-7" true true) failOnDaySix 10 fiveToSevenComplete).state
      = World.mk 900 [(7, true), (5, true)] [(7, true), (5, true)] :=
  have h := Statistics.main_range_backfill_exact (rangeFlags "5-7" true true) failOnDaySix
    10 fiveToSevenComplete 5 7
    (fun k d s hd => by simp [failOnDaySix, ledgerDb, hd])
    (by decide) (by decide) (by decide) (by decide) (by decide) (by decide) (by decide)
  ⟨h.1, h.2.1.trans (by decide), h.2.2.1.trans (by decide), h.2.2.2.1.trans (by decide)⟩

/-- C6 (amended): a non-empty range string with fewer than two dash-separated components,
or whose first or second component is not numeric, makes `main` exit fatally before any
delete and any writer call. -/
theorem Statistics.main_rejects_malformed_bounds {σ : Type} (f : Flags) (db : Db σ)
    (fuel : Nat) (s : σ) (hne : f.statisticsDaysToExport ≠ "")
    (hbad : MalformedBounds f.statisticsDaysToExport) :
    (main f db fuel s).status = MainStatus.fatal ∧ (main f db fuel s).trace = [] := by
  unfold main
  rw [if_pos hne]
  dsimp only
  by_cases hlen : (Split f.statisticsDaysToExport.toList '-').length < 2
  · rw [if_pos hlen]
    exact ⟨rfl, rfl⟩
  · rw [if_neg hlen]
    rcases hbad with h | h | h
    · exact absurd h hlen
    · rw [ParseUint_not_numeric _ h]
      exact ⟨rfl, rfl⟩
    · rw [ParseUint_not_numeric _ h]
      cases ParseUint ((Split f.statisticsDaysToExport.toList '-').getD 0 []) with
      | none => exact ⟨rfl, rfl⟩
      | some firstDay => exact ⟨rfl, rfl⟩

/-- Witness for C6 (amended): the range string `5`. -/
theorem Statistics.main_rejects_malformed_bounds_witness :
    (main (rangeFlags "5" true true) noFailure 10 (World.mk 900 [] [])).status
      = MainStatus.fatal ∧
    (main (rangeFlags "5" true true) noFailure 10 (World.mk 900 [] [])).trace = [] :=
  Statistics.main_rejects_malformed_bounds (rangeFlags "5" true true) noFailure 10
    (World.mk 900 [] []) (by decide) (by decide)

/-- Counterexample to C6 as stated: `5-7-x` is non-empty and has a component that is not
numeric, yet `main` runs the backfill of days 5 to 7 and returns. -/
theorem Statistics.main_accepts_extra_component :
    ("5-7-x" : String) ≠ "" ∧ Malformed "5-7-x" ∧
    (main (rangeFlags "5-7-x" true false) noFailure 10 (World.mk 900 [] [])).status
      = MainStatus.returned ∧
    (main (rangeFlags "5-7-x" true false) noFailure 10 (World.mk 900 [] [])).trace
      = [Event.delete Kind.validator 5 true, Event.write Kind.validator 5 true,
         Event.delete Kind.validator 6 true, Event.write Kind.validator 6 true,
         Event.delete Kind.validator 7 true, Event.write Kind.validator 7 true] :=
  ⟨by decide, by decide, by decide, by decide⟩

end Backfill
